import Mathlib

/-!
FishEyeUnwarping: a shallow embedding of `ImageWarping.cpp`

Modelling conventions.

* `int` values are mathematical integers (`Int`); where the source mixes
  signed and unsigned arithmetic (`PointMean`) and where it squares the fitted
  radius in `int` (`float(R * R)`), the 32 bit wrap-around is explicit
  (`toInt32`).
* `float` and `double` values are modelled in exact arithmetic: rationals for
  the circle fit, an arbitrary field `K` (instantiated with the reals) for the
  map generators; rounding is not modelled.  The C math library is a
  parameter (`MathFns`); the constant `CV_PI` is the parameter `MathFns.pi`,
  which is either the real number pi (`RealMath`) or the `double` value of the
  constant (`CvMath`).
* A division is a fallible operation (`fdiv`): evaluating it with a zero
  denominator yields `none`.  In the Midpoint-Circle loop body `sqrt` of a
  negative number and `asin` outside `[-1, 1]` (NaN in C) yield `none` as well
  (`fsqrt`, `fasin`).
* OpenCV (`imread`, `solve`, `remap`) and the interactive point picking are
  external collaborators and appear as parameters or as exact-arithmetic models.
-/

namespace FishEye

/-! ## Circle Fit Estimator -/

/-- The type `cv::Point`: an integer pixel coordinate. -/
structure Point where
  x : Int
  y : Int
  deriving DecidableEq, Repr

/-- Conversion of an integer value to `int` (32 bit two's complement). -/
def toInt32 (z : Int) : Int := (z + 2 ^ 31) % 2 ^ 32 - 2 ^ 31

/-- The statement `mean.x /= aPoints.size()`: the `int` is converted to `size_t`
(64 bit unsigned), divided, and the quotient converted back to `int`. -/
def divBySize (s : Int) (n : Nat) : Int := toInt32 ((s % 2 ^ 64) / (n : Int))

/-- The function `PointMean`: component sums from zero, then divided by the size. -/
def PointMean (aPoints : List Point) : Point :=
  let acc := aPoints.foldl (fun (m : Point) p => ⟨m.x + p.x, m.y + p.y⟩) ⟨0, 0⟩
  ⟨divBySize acc.x aPoints.length, divBySize acc.y aPoints.length⟩

/-- The nine `int` accumulators of the moment loop. -/
structure Moments where
  sum_xi : Int
  sum_yi : Int
  sum_xi_2 : Int
  sum_yi_2 : Int
  sum_xi_3 : Int
  sum_yi_3 : Int
  sum_xi_yi : Int
  sum_xi_yi_2 : Int
  sum_xi_2_yi : Int
  deriving DecidableEq, Repr

/-- One iteration of the moment loop for the point `p`. -/
def accumulate (mean : Point) (m : Moments) (p : Point) : Moments :=
  let xi := p.x - mean.x
  let yi := p.y - mean.y
  { sum_xi := m.sum_xi + xi
    sum_yi := m.sum_yi + yi
    sum_xi_2 := m.sum_xi_2 + xi * xi
    sum_yi_2 := m.sum_yi_2 + yi * yi
    sum_xi_3 := m.sum_xi_3 + xi * xi * xi
    sum_yi_3 := m.sum_yi_3 + yi * yi * yi
    sum_xi_yi := m.sum_xi_yi + xi * yi
    sum_xi_yi_2 := m.sum_xi_yi_2 + xi * yi * yi
    sum_xi_2_yi := m.sum_xi_2_yi + xi * xi * yi }

/-- The number of calibration points, `nNumPoints`. -/
def nNumPoints : Nat := 12

/-- The moment loop: it visits the first `nNumPoints` entries of `aPoints`. -/
def momentSums (mean : Point) (aPoints : List Point) : Moments :=
  (aPoints.take nNumPoints).foldl (accumulate mean) ⟨0, 0, 0, 0, 0, 0, 0, 0, 0⟩

/-- A 3x3 matrix of doubles (exact: rationals), row by row. -/
structure Mat3 where
  d00 : ℚ
  d01 : ℚ
  d02 : ℚ
  d10 : ℚ
  d11 : ℚ
  d12 : ℚ
  d20 : ℚ
  d21 : ℚ
  d22 : ℚ
  deriving DecidableEq

/-- A 3x1 column of doubles (exact: rationals). -/
structure Vec3 where
  q0 : ℚ
  q1 : ℚ
  q2 : ℚ
  deriving DecidableEq

/-- The matrix `D` of the least squares system. -/
def matD (m : Moments) : Mat3 :=
  { d00 := ((2 * m.sum_xi : Int) : ℚ)
    d01 := ((2 * m.sum_yi : Int) : ℚ)
    d02 := (nNumPoints : ℚ)
    d10 := ((2 * m.sum_xi_2 : Int) : ℚ)
    d11 := ((2 * m.sum_xi_yi : Int) : ℚ)
    d12 := ((m.sum_xi : Int) : ℚ)
    d20 := ((2 * m.sum_xi_yi : Int) : ℚ)
    d21 := ((2 * m.sum_yi_2 : Int) : ℚ)
    d22 := ((m.sum_yi : Int) : ℚ) }

/-- The right hand side `E` of the least squares system. -/
def vecE (m : Moments) : Vec3 :=
  { q0 := ((m.sum_xi_2 + m.sum_yi_2 : Int) : ℚ)
    q1 := ((m.sum_xi_3 + m.sum_xi_yi_2 : Int) : ℚ)
    q2 := ((m.sum_xi_2_yi + m.sum_yi_3 : Int) : ℚ) }

/-- The determinant of a 3x3 matrix. -/
def det3 (D : Mat3) : ℚ :=
  D.d00 * (D.d11 * D.d22 - D.d12 * D.d21)
    - D.d01 * (D.d10 * D.d22 - D.d12 * D.d20)
    + D.d02 * (D.d10 * D.d21 - D.d11 * D.d20)

/-- The product `D * Q`. -/
def mulVec3 (D : Mat3) (Q : Vec3) : Vec3 :=
  { q0 := D.d00 * Q.q0 + D.d01 * Q.q1 + D.d02 * Q.q2
    q1 := D.d10 * Q.q0 + D.d11 * Q.q1 + D.d12 * Q.q2
    q2 := D.d20 * Q.q0 + D.d21 * Q.q1 + D.d22 * Q.q2 }

/-- The solution of `D * Q = E` for a regular `D`, by Cramer's rule. -/
def cramer3 (D : Mat3) (E : Vec3) : Vec3 :=
  { q0 := det3 { D with d00 := E.q0, d10 := E.q1, d20 := E.q2 } / det3 D
    q1 := det3 { D with d01 := E.q0, d11 := E.q1, d21 := E.q2 } / det3 D
    q2 := det3 { D with d02 := E.q0, d12 := E.q1, d22 := E.q2 } / det3 D }

/-- OpenCV's `solve( D, E, Q, DECOMP_LU )` in exact arithmetic.  It returns the
status flag and the content of `Q` afterwards: the unique solution when `D` is
regular; when `D` is singular the flag is `false` and `Q` holds `Q0`, the
content the library leaves there (zeros or the previous content). -/
def solve (Q0 : Vec3) (D : Mat3) (E : Vec3) : Bool × Vec3 :=
  if det3 D = 0 then (false, Q0) else (true, cramer3 D E)

/-- The conversion `(int)d` of a double: truncation toward zero. -/
def truncToInt (q : ℚ) : Int := Int.tdiv q.num (q.den : Int)

/-- The expression `(int)sqrt( x )`: the integer part of the real square root.
For a negative `x` the source converts a NaN, which C++ leaves undefined; the
model yields `0` there. -/
def sqrtToInt (q : ℚ) : Int := (Nat.sqrt (Int.toNat (Int.floor q)) : Int)

/-- The fitted circle: the `int` variables `Cx`, `Cy` and `R` of `main`. -/
structure FittedCircle where
  Cx : Int
  Cy : Int
  R : Int
  deriving DecidableEq, Repr

/-- The radicand `C + A * A + B * B` of the radius. -/
def radicand (Q : Vec3) : ℚ := Q.q2 + Q.q0 * Q.q0 + Q.q1 * Q.q1

/-- The Circle Fit Estimator of `main`: mean, moment sums, the system `D`, `E`,
the solve (whose status flag is discarded) and the recovery of `Cx`, `Cy`, `R`. -/
def circleFit (Q0 : Vec3) (aPoints : List Point) : FittedCircle :=
  let mean := PointMean aPoints
  let m := momentSums mean aPoints
  let Q := (solve Q0 (matD m) (vecE m)).2
  { Cx := truncToInt Q.q0 + mean.x
    Cy := truncToInt Q.q1 + mean.y
    R := sqrtToInt (radicand Q) }

/-- The twelve lattice points of the circle with center (50, 60) and radius 40. -/
def circle50_60_40 : List Point :=
  [⟨90, 60⟩, ⟨10, 60⟩, ⟨50, 100⟩, ⟨50, 20⟩, ⟨74, 92⟩, ⟨74, 28⟩, ⟨26, 92⟩, ⟨26, 28⟩,
   ⟨82, 84⟩, ⟨82, 36⟩, ⟨18, 84⟩, ⟨18, 36⟩]

/-! ## The C library and fallible division -/

/-- The C math library used by the generators, over the number type `K`. -/
structure MathFns (K : Type) where
  pi : K
  sqrt : K → K
  sin : K → K
  cos : K → K
  asin : K → K
  atan : K → K
  fabs : K → K
  pow : K → K → K

/-- A floating point division `a / b`; `none` records a zero denominator. -/
def fdiv {K : Type} [LinearOrderedField K] (a b : K) : Option K :=
  if b = 0 then none else some (a / b)

/-! ## Hemicylinder Generator -/

/-- The enumeration `EDistortionModel`. -/
inductive EDistortionModel where
  | NODISTORTION
  | EQUIDISTANT
  | EQUISOLID
  deriving DecidableEq, Repr

/-- The values computed for one pixel by the Hemicylinder loop body. -/
structure HemiPixel (K : Type) where
  alpha : K
  xp : K
  yp : K
  zp : K
  rp : K
  theta : K
  x1 : K
  y1 : K
  mapX : K
  mapY : K

/-- The lens model `switch` of the Hemicylinder loop body: the offsets `(x1, y1)`. -/
def lensModel {K : Type} [LinearOrderedField K] (M : MathFns K)
    (eDistModel : EDistortionModel) (F theta xp yp rp xt yt : K) : Option (K × K) :=
  match eDistModel with
  | .EQUIDISTANT => do
      let x1 ← fdiv (F * theta * xp) rp
      let y1 ← fdiv (F * theta * yp) rp
      pure (x1, y1)
  | .EQUISOLID => do
      let x1 ← fdiv (2 * F * M.sin (theta / 2) * xp) rp
      let y1 ← fdiv (2 * F * M.sin (theta / 2) * yp) rp
      pure (x1, y1)
  | .NODISTORTION => pure (xt, yt)

/-- The body of the Hemicylinder loop for the pixel `(u, v)`. -/
def hemicylinderPixel {K : Type} [LinearOrderedField K] (M : MathFns K)
    (eDistModel : EDistortionModel) (nWidth nHeight u v : Nat) : Option (HemiPixel K) := do
  let Cx : Nat := nWidth / 2
  let Cy : Nat := nHeight / 2
  let F ← fdiv (nWidth : K) M.pi
  let xt : K := (u : K)
  let yt : K := (((v : Int) - (Cy : Int) : Int) : K)
  let r ← fdiv (nWidth : K) M.pi
  let alpha ← fdiv ((nWidth : K) - xt) r
  let xp := r * M.cos alpha
  let yp := yt
  let zp := r * M.fabs (M.sin alpha)
  let rp := M.sqrt (xp * xp + yp * yp)
  let q ← fdiv rp zp
  let theta := M.atan q
  let xy ← lensModel M eDistModel F theta xp yp rp xt yt
  pure { alpha := alpha, xp := xp, yp := yp, zp := zp, rp := rp, theta := theta,
         x1 := xy.1, y1 := xy.2, mapX := xy.1 + (Cx : K), mapY := xy.2 + (Cy : K) }

/-! ## Midpoint-Circle Generator -/

/-- The values computed in the non limiting case of the Midpoint-Circle loop body. -/
structure MidGeneral (K : Type) where
  AO1 : K
  AB : K
  AP : K
  PE : K
  a : K
  b : K
  alpha : K

/-- The C function `sqrt` as called by the Midpoint-Circle loop body: a
negative argument gives NaN, recorded as `none`. -/
def fsqrt {K : Type} [LinearOrderedField K] (M : MathFns K) (x : K) : Option K :=
  if x < 0 then none else some (M.sqrt x)

/-- The C function `asin` as called by the Midpoint-Circle loop body: an
argument outside `[-1, 1]` gives NaN, recorded as `none`. -/
def fasin {K : Type} [LinearOrderedField K] (M : MathFns K) (x : K) : Option K :=
  if x < -1 ∨ 1 < x then none else some (M.asin x)

/-- The non limiting case (`xt != 0`) of the Midpoint-Circle loop body.  The
product `R * R` is taken in `int` (32 bit) before the conversion to `float`. -/
def midpointGeneral {K : Type} [LinearOrderedField K] (M : MathFns K)
    (R : Int) (xt yt : K) : Option (MidGeneral K) := do
  let AO1 ← fdiv (xt * xt + ((toInt32 (R * R) : Int) : K)) (2 * xt)
  let AB ← fsqrt M (xt * xt + ((toInt32 (R * R) : Int) : K))
  let AP := yt
  let PE := (R : K) - yt
  let a ← fdiv AP PE
  let q ← fdiv AB (2 * AO1)
  let s ← fasin M q
  let b := 2 * s
  let alpha ← fdiv (a * b) (a + 1)
  pure { AO1 := AO1, AB := AB, AP := AP, PE := PE, a := a, b := b, alpha := alpha }

/-- The offsets `(x1, y1)` of the Midpoint-Circle loop body. -/
def midpointOffset {K : Type} [LinearOrderedField K] (M : MathFns K)
    (R : Int) (xt yt : K) : Option (K × K) :=
  if xt ≠ 0 then do
    let g ← midpointGeneral M R xt yt
    pure (xt - g.AO1 + g.AO1 * M.cos g.alpha, g.AO1 * M.sin g.alpha)
  else
    pure (xt, yt)

/-- The body of the Midpoint-Circle loop: the stored `(mapX, mapY)` at `(u, v)`. -/
def midpointCirclePixel {K : Type} [LinearOrderedField K] (M : MathFns K)
    (Cx Cy R : Int) (u v : Nat) : Option (K × K) := do
  let xt : K := (((u : Int) - Cx : Int) : K)
  let yt : K := (((v : Int) - Cy : Int) : K)
  let xy ← midpointOffset M R xt yt
  pure (xy.1 + (Cx : K), xy.2 + (Cy : K))

/-! ## Vertical Range Normalizer -/

/-- Phase 1 for one column: the scan for `(min_y1, max_y1)`, started from
`((float)nHeight, 0.0)`. -/
def scanColumn {K : Type} [LinearOrderedField K] (nHeight : Nat) (col : Nat → K) : K × K :=
  (List.range nHeight).foldl
    (fun (acc : K × K) v =>
      let y1 := col v
      (if y1 < acc.1 then y1 else acc.1, if y1 > acc.2 then y1 else acc.2))
    ((nHeight : K), 0)

/-- The value of `factor` used by phase 2 for one column. -/
def columnFactor {K : Type} [LinearOrderedField K] (M : MathFns K)
    (nHeight : Nat) (col : Nat → K) : Option K := do
  let mm := scanColumn nHeight col
  let range := mm.2 - mm.1
  let factor ← fdiv range (nHeight : K)
  pure (if factor > 1 then M.pow factor 1 else factor)

/-- The Normalizer for the cell `(u, v)`: the rewritten `(mapX, mapY)`, where
`transformMapY v u` is the content of the map before the rewrite. -/
def normalizeCell {K : Type} [LinearOrderedField K] (M : MathFns K)
    (nHeight : Nat) (Cy : Int) (transformMapY : Nat → Nat → K) (u v : Nat) : Option (K × K) := do
  let factor ← columnFactor M nHeight (fun w => transformMapY w u)
  let y ← fdiv ((((v : Int) - Cy : Int) : K)) factor
  pure ((u : K), y + (Cy : K))

/-! ## Method selection and the control flow of `main` -/

/-- The C predicate `isspace` in the "C" locale. -/
def isSpaceC (c : Char) : Bool := c.toNat = 32 || (9 ≤ c.toNat && c.toNat ≤ 13)

/-- The digit loop of `atoi`. -/
def atoiDigits (acc : Int) : List Char → Int
  | [] => acc
  | c :: cs => if c.isDigit then atoiDigits (acc * 10 + ((c.toNat : Int) - 48)) cs else acc

/-- The C library function `atoi` (no overflow): leading white space, an
optional sign, then the longest run of decimal digits; `0` without digits. -/
def atoi (s : List Char) : Int :=
  match s.dropWhile isSpaceC with
  | [] => 0
  | c :: cs =>
    if c.toNat = 45 then - atoiDigits 0 cs
    else if c.toNat = 43 then atoiDigits 0 cs
    else atoiDigits 0 (c :: cs)

/-- The enumerator `HEMICYLINDER` of `EMethod`. -/
def HEMICYLINDER : Int := 0

/-- The enumerator `MIDPOINTCIRCLE` of `EMethod`. -/
def MIDPOINTCIRCLE : Int := 1

/-- The external collaborators of one run: the image decoder (`cols`, `rows`
of the loaded image, or `none` when loading fails), the points delivered by
the mouse callback, and the content the solver leaves in `Q` on failure. -/
structure Env where
  imread : String → Option (Nat × Nat)
  aPoints : List Point
  Q0 : Vec3

/-- What a run of `main` produces: the exit status, the selected method, the
fitted circle, and the generated coordinate map (`transformMap v u` is the
pair `(mapX, mapY)` stored at row `v`, column `u`). -/
structure RunResult (K : Type) where
  status : Int
  eMethod : Option Int
  circle : Option FittedCircle
  transformMap : Option (Nat → Nat → Option (K × K))

/-- The control flow of `main` up to the generation of the coordinate map. -/
def main {K : Type} [LinearOrderedField K] (M : MathFns K) (env : Env)
    (argv : List String) : RunResult K :=
  if argv.length < 3 then
    ⟨-1, none, none, none⟩
  else
    match env.imread (argv.getD 1 "") with
    | none => ⟨-1, none, none, none⟩
    | some (nWidth, nHeight) =>
      let eMethod : Int := if argv.length ≥ 4 then atoi (argv.getD 3 "").data else HEMICYLINDER
      if HEMICYLINDER = eMethod then
        ⟨0, some eMethod, none,
          some (fun v u =>
            (hemicylinderPixel M .EQUIDISTANT nWidth nHeight u v).map
              (fun p => (p.mapX, p.mapY)))⟩
      else if MIDPOINTCIRCLE = eMethod then
        let c := circleFit env.Q0 env.aPoints
        ⟨0, some eMethod, some c, some (fun v u => midpointCirclePixel M c.Cx c.Cy c.R u v)⟩
      else
        ⟨-1, some eMethod, none, none⟩

/-! ## Predicates and concrete inputs used by the statements -/

/-- The math library `M` over the reals is the exact one. -/
def RealMath (M : MathFns ℝ) : Prop :=
  M.pi = Real.pi ∧ M.sqrt = Real.sqrt ∧ M.sin = Real.sin ∧ M.cos = Real.cos ∧
    M.asin = Real.arcsin ∧ M.atan = Real.arctan ∧ M.fabs = (fun x => |x|) ∧
    M.pow = (fun x y => x ^ y)

/-- The constant `CV_PI` as the compiler reads it: the `double` nearest to
`3.1415926535897932384626433832795`, which is `884279719003555 / 2^48`. -/
def CV_PI : ℚ := 884279719003555 / 281474976710656

/-- The math library `M` over the reals has the exact functions and the
`double` constant `CV_PI` for pi. -/
def CvMath (M : MathFns ℝ) : Prop :=
  M.pi = ((CV_PI : ℚ) : ℝ) ∧ M.sqrt = Real.sqrt ∧ M.sin = Real.sin ∧ M.cos = Real.cos ∧
    M.asin = Real.arcsin ∧ M.atan = Real.arctan ∧ M.fabs = (fun x => |x|) ∧
    M.pow = (fun x y => x ^ y)

/-- Collaborators of a run on a 300x300 image with the clicks `pts`. -/
def envWith (pts : List Point) : Env :=
  { imread := fun _ => some (300, 300), aPoints := pts, Q0 := ⟨0, 0, 0⟩ }

/-- A command line with the method argument `method`. -/
def argvWith (method : String) : List String :=
  ["ImageWarping.exe", "in.png", "out.png", method]

/-! ## The moment loop in 32 bit arithmetic -/

/-- The products of one iteration of the moment loop, exact:
`xi*xi`, `yi*yi`, `xi*xi*xi`, `yi*yi*yi`, `xi*yi`, `xi*yi*yi`, `xi*xi*yi`. -/
def products (xi yi : Int) : List Int :=
  [xi * xi, yi * yi, xi * xi * xi, yi * yi * yi, xi * yi, xi * yi * yi, xi * xi * yi]

/-- The products of one iteration of the moment loop, every `int`
multiplication reduced modulo 2^32. -/
def products32 (xi yi : Int) : List Int :=
  [toInt32 (xi * xi), toInt32 (yi * yi), toInt32 (toInt32 (xi * xi) * xi),
   toInt32 (toInt32 (yi * yi) * yi), toInt32 (xi * yi), toInt32 (toInt32 (xi * yi) * yi),
   toInt32 (toInt32 (xi * xi) * yi)]

/-- One iteration of the moment loop with every `int` operation reduced
modulo 2^32. -/
def accumulate32 (mean : Point) (m : Moments) (p : Point) : Moments :=
  let xi := toInt32 (p.x - mean.x)
  let yi := toInt32 (p.y - mean.y)
  { sum_xi := toInt32 (m.sum_xi + xi)
    sum_yi := toInt32 (m.sum_yi + yi)
    sum_xi_2 := toInt32 (m.sum_xi_2 + toInt32 (xi * xi))
    sum_yi_2 := toInt32 (m.sum_yi_2 + toInt32 (yi * yi))
    sum_xi_3 := toInt32 (m.sum_xi_3 + toInt32 (toInt32 (xi * xi) * xi))
    sum_yi_3 := toInt32 (m.sum_yi_3 + toInt32 (toInt32 (yi * yi) * yi))
    sum_xi_yi := toInt32 (m.sum_xi_yi + toInt32 (xi * yi))
    sum_xi_yi_2 := toInt32 (m.sum_xi_yi_2 + toInt32 (toInt32 (xi * yi) * yi))
    sum_xi_2_yi := toInt32 (m.sum_xi_2_yi + toInt32 (toInt32 (xi * xi) * yi)) }

/-- The moment loop with every `int` operation reduced modulo 2^32. -/
def momentSums32 (mean : Point) (aPoints : List Point) : Moments :=
  (aPoints.take nNumPoints).foldl (accumulate32 mean) ⟨0, 0, 0, 0, 0, 0, 0, 0, 0⟩

/-- The `int` expressions converted to `double` for `D` (row by row, without
the constant `nNumPoints`) and `E`, exact. -/
def systemInts (m : Moments) : List Int :=
  [2 * m.sum_xi, 2 * m.sum_yi, 2 * m.sum_xi_2, 2 * m.sum_xi_yi, m.sum_xi,
   2 * m.sum_xi_yi, 2 * m.sum_yi_2, m.sum_yi,
   m.sum_xi_2 + m.sum_yi_2, m.sum_xi_3 + m.sum_xi_yi_2, m.sum_xi_2_yi + m.sum_yi_3]

/-- The `int` expressions converted to `double` for `D` and `E`, reduced
modulo 2^32. -/
def systemInts32 (m : Moments) : List Int :=
  [toInt32 (2 * m.sum_xi), toInt32 (2 * m.sum_yi), toInt32 (2 * m.sum_xi_2),
   toInt32 (2 * m.sum_xi_yi), m.sum_xi,
   toInt32 (2 * m.sum_xi_yi), toInt32 (2 * m.sum_yi_2), m.sum_yi,
   toInt32 (m.sum_xi_2 + m.sum_yi_2), toInt32 (m.sum_xi_3 + m.sum_xi_yi_2),
   toInt32 (m.sum_xi_2_yi + m.sum_yi_3)]

/-- Twelve calibration points on a 3000 pixel wide image with mean `x` 136:
the first has the translated coordinate `xi = 1500`. -/
def wideOffset12 : List Point :=
  [⟨1636, 0⟩, ⟨0, 0⟩, ⟨0, 0⟩, ⟨0, 0⟩, ⟨0, 0⟩, ⟨0, 0⟩, ⟨0, 0⟩, ⟨0, 0⟩, ⟨0, 0⟩, ⟨0, 0⟩,
   ⟨0, 0⟩, ⟨0, 0⟩]

/-- Every accumulator of `m` is within the bound reached after `k` iterations
with translated coordinates of absolute value at most 447. -/
def MomentsWithin (m : Moments) (k : Int) : Prop :=
  (-(k * 447) ≤ m.sum_xi ∧ m.sum_xi ≤ k * 447) ∧
  (-(k * 447) ≤ m.sum_yi ∧ m.sum_yi ≤ k * 447) ∧
  (-(k * 199809) ≤ m.sum_xi_2 ∧ m.sum_xi_2 ≤ k * 199809) ∧
  (-(k * 199809) ≤ m.sum_yi_2 ∧ m.sum_yi_2 ≤ k * 199809) ∧
  (-(k * 89314623) ≤ m.sum_xi_3 ∧ m.sum_xi_3 ≤ k * 89314623) ∧
  (-(k * 89314623) ≤ m.sum_yi_3 ∧ m.sum_yi_3 ≤ k * 89314623) ∧
  (-(k * 199809) ≤ m.sum_xi_yi ∧ m.sum_xi_yi ≤ k * 199809) ∧
  (-(k * 89314623) ≤ m.sum_xi_yi_2 ∧ m.sum_xi_yi_2 ≤ k * 89314623) ∧
  (-(k * 89314623) ≤ m.sum_xi_2_yi ∧ m.sum_xi_2_yi ≤ k * 89314623)

/-- Twelve calibration points on a wide arc: `(1, 0)`, `(0, 316)`, `(1, 632)`,
each clicked four times; they lie on the circle with centre `(49928.5, 316)`
and radius `49928.5`. -/
def wideArc12 : List Point :=
  [⟨1, 0⟩, ⟨0, 316⟩, ⟨1, 632⟩, ⟨1, 0⟩, ⟨0, 316⟩, ⟨1, 632⟩,
   ⟨1, 0⟩, ⟨0, 316⟩, ⟨1, 632⟩, ⟨1, 0⟩, ⟨0, 316⟩, ⟨1, 632⟩]

/-- Collaborators of a run on a 640x640 image with the clicks `wideArc12`. -/
def wideArcEnv : Env :=
  { imread := fun _ => some (640, 640), aPoints := wideArc12, Q0 := ⟨0, 0, 0⟩ }

/-! ## Circle fit: auxiliary facts -/

theorem truncToInt_intCast (z : Int) : truncToInt (z : ℚ) = z := by
  simp [truncToInt]

theorem sqrtToInt_sq (r : Int) (hr : 0 < r) : sqrtToInt ((r ^ 2 : Int) : ℚ) = r := by
  unfold sqrtToInt
  rw [Int.floor_intCast]
  have h : (r ^ 2).toNat = r.toNat * r.toNat := by
    have h1 := Int.toNat_of_nonneg hr.le
    zify
    rw [Int.toNat_of_nonneg (by positivity), h1]
    ring
  rw [h, Nat.sqrt_eq, Int.toNat_of_nonneg hr.le]

/-- Cramer's rule returns the solution of a regular system. -/
theorem cramer3_mulVec3 (D : Mat3) (Q : Vec3) (h : det3 D ≠ 0) :
    cramer3 D (mulVec3 D Q) = Q := by
  have h' : D.d00 * (D.d11 * D.d22 - D.d12 * D.d21)
      - D.d01 * (D.d10 * D.d22 - D.d12 * D.d20)
      + D.d02 * (D.d10 * D.d21 - D.d11 * D.d20) ≠ 0 := h
  cases Q with
  | mk q0 q1 q2 =>
    simp only [cramer3, mulVec3, det3, Vec3.mk.injEq]
    refine ⟨?_, ?_, ?_⟩ <;> rw [div_eq_iff h'] <;> ring

/-- A singular matrix annihilates a non-zero vector. -/
theorem det3_eq_zero_kernel (D : Mat3) (h : det3 D = 0) :
    ∃ x y z : ℚ, ¬ (x = 0 ∧ y = 0 ∧ z = 0) ∧
      D.d00 * x + D.d01 * y + D.d02 * z = 0 ∧
      D.d10 * x + D.d11 * y + D.d12 * z = 0 ∧
      D.d20 * x + D.d21 * y + D.d22 * z = 0 := by
  have hdet : (Matrix.of ![![D.d00, D.d01, D.d02], ![D.d10, D.d11, D.d12],
      ![D.d20, D.d21, D.d22]] : Matrix (Fin 3) (Fin 3) ℚ).det = 0 := by
    rw [Matrix.det_fin_three]
    simp
    unfold det3 at h
    linarith
  obtain ⟨v, hv, hmv⟩ := Matrix.exists_mulVec_eq_zero_iff.mpr hdet
  refine ⟨v 0, v 1, v 2, ?_, ?_, ?_, ?_⟩
  · rintro ⟨h0, h1, h2⟩
    apply hv
    funext j
    fin_cases j <;> simp [h0, h1, h2]
  · have := congrFun hmv 0
    simpa [Matrix.mulVec, Matrix.dotProduct, Fin.sum_univ_three] using this
  · have := congrFun hmv 1
    simpa [Matrix.mulVec, Matrix.dotProduct, Fin.sum_univ_three] using this
  · have := congrFun hmv 2
    simpa [Matrix.mulVec, Matrix.dotProduct, Fin.sum_univ_three] using this

/-- The moment loop keeps the three equations of the system for every point
that satisfies `x^2 + y^2 = 2 A x + 2 B y + C` in translated coordinates. -/
theorem foldl_accumulate_system (mean : Point) (A B C : ℚ) (l : List Point)
    (hon : ∀ p ∈ l, ((p.x - mean.x : Int) : ℚ) ^ 2 + ((p.y - mean.y : Int) : ℚ) ^ 2
      = 2 * A * ((p.x - mean.x : Int) : ℚ) + 2 * B * ((p.y - mean.y : Int) : ℚ) + C) :
    ∀ (m : Moments) (n : ℚ),
      2 * (m.sum_xi : ℚ) * A + 2 * (m.sum_yi : ℚ) * B + n * C
        = (m.sum_xi_2 : ℚ) + (m.sum_yi_2 : ℚ) →
      2 * (m.sum_xi_2 : ℚ) * A + 2 * (m.sum_xi_yi : ℚ) * B + (m.sum_xi : ℚ) * C
        = (m.sum_xi_3 : ℚ) + (m.sum_xi_yi_2 : ℚ) →
      2 * (m.sum_xi_yi : ℚ) * A + 2 * (m.sum_yi_2 : ℚ) * B + (m.sum_yi : ℚ) * C
        = (m.sum_xi_2_yi : ℚ) + (m.sum_yi_3 : ℚ) →
      (2 * ((l.foldl (accumulate mean) m).sum_xi : ℚ) * A
          + 2 * ((l.foldl (accumulate mean) m).sum_yi : ℚ) * B + (n + l.length) * C
        = ((l.foldl (accumulate mean) m).sum_xi_2 : ℚ)
          + ((l.foldl (accumulate mean) m).sum_yi_2 : ℚ)) ∧
      (2 * ((l.foldl (accumulate mean) m).sum_xi_2 : ℚ) * A
          + 2 * ((l.foldl (accumulate mean) m).sum_xi_yi : ℚ) * B
          + ((l.foldl (accumulate mean) m).sum_xi : ℚ) * C
        = ((l.foldl (accumulate mean) m).sum_xi_3 : ℚ)
          + ((l.foldl (accumulate mean) m).sum_xi_yi_2 : ℚ)) ∧
      (2 * ((l.foldl (accumulate mean) m).sum_xi_yi : ℚ) * A
          + 2 * ((l.foldl (accumulate mean) m).sum_yi_2 : ℚ) * B
          + ((l.foldl (accumulate mean) m).sum_yi : ℚ) * C
        = ((l.foldl (accumulate mean) m).sum_xi_2_yi : ℚ)
          + ((l.foldl (accumulate mean) m).sum_yi_3 : ℚ)) := by
  induction l with
  | nil =>
    intro m n h0 h1 h2
    simp only [List.foldl_nil, List.length_nil, Nat.cast_zero, add_zero]
    exact ⟨h0, h1, h2⟩
  | cons p l ih =>
    intro m n h0 h1 h2
    have hp := hon p (List.mem_cons_self p l)
    have ih' := ih (fun q hq => hon q (List.mem_cons_of_mem p hq)) (accumulate mean m p) (n + 1)
    simp only [List.foldl_cons, List.length_cons, Nat.cast_add, Nat.cast_one]
    have e : n + ((l.length : ℚ) + 1) = n + 1 + (l.length : ℚ) := by ring
    rw [e]
    apply ih'
    · simp only [accumulate]
      push_cast
      push_cast at hp
      linear_combination h0 - hp
    · simp only [accumulate]
      push_cast
      push_cast at hp
      linear_combination h1 - ((p.x : ℚ) - (mean.x : ℚ)) * hp
    · simp only [accumulate]
      push_cast
      push_cast at hp
      linear_combination h2 - ((p.y : ℚ) - (mean.y : ℚ)) * hp

/-- The quadratic form of the moment matrix at `(x, y, z)` is the sum of the
squares `(2 x xi + 2 y yi + z)^2` over the visited points. -/
theorem foldl_accumulate_quadform (mean : Point) (x y z : ℚ) (l : List Point) :
    ∀ (m : Moments) (n : ℚ),
      4 * x ^ 2 * ((l.foldl (accumulate mean) m).sum_xi_2 : ℚ)
        + 8 * x * y * ((l.foldl (accumulate mean) m).sum_xi_yi : ℚ)
        + 4 * y ^ 2 * ((l.foldl (accumulate mean) m).sum_yi_2 : ℚ)
        + 4 * x * z * ((l.foldl (accumulate mean) m).sum_xi : ℚ)
        + 4 * y * z * ((l.foldl (accumulate mean) m).sum_yi : ℚ)
        + z ^ 2 * (n + l.length)
      = (4 * x ^ 2 * (m.sum_xi_2 : ℚ) + 8 * x * y * (m.sum_xi_yi : ℚ)
          + 4 * y ^ 2 * (m.sum_yi_2 : ℚ) + 4 * x * z * (m.sum_xi : ℚ)
          + 4 * y * z * (m.sum_yi : ℚ) + z ^ 2 * n)
        + (l.map (fun p => (2 * x * ((p.x - mean.x : Int) : ℚ)
            + 2 * y * ((p.y - mean.y : Int) : ℚ) + z) ^ 2)).sum := by
  induction l with
  | nil =>
    intro m n
    simp
  | cons p l ih =>
    intro m n
    simp only [List.foldl_cons, List.length_cons, Nat.cast_add, Nat.cast_one, List.map_cons,
      List.sum_cons]
    have e : n + ((l.length : ℚ) + 1) = n + 1 + (l.length : ℚ) := by ring
    rw [e, ih (accumulate mean m p) (n + 1)]
    simp only [accumulate]
    push_cast
    ring

/-- A sum of squares vanishes only if every term does. -/
theorem sum_sq_eq_zero {α : Type} (f : α → ℚ) (l : List α)
    (h : (l.map (fun p => (f p) ^ 2)).sum = 0) : ∀ p ∈ l, f p = 0 := by
  induction l with
  | nil => intro p hp; cases hp
  | cons q l ih =>
    simp only [List.map_cons, List.sum_cons] at h
    have h1 : 0 ≤ (l.map (fun p => (f p) ^ 2)).sum :=
      List.sum_nonneg (by
        intro t ht
        obtain ⟨p, _, rfl⟩ := List.mem_map.mp ht
        positivity)
    have h2 : 0 ≤ (f q) ^ 2 := by positivity
    have h3 : (f q) ^ 2 = 0 := by linarith
    have h4 : (l.map (fun p => (f p) ^ 2)).sum = 0 := by linarith
    intro p hp
    rcases List.mem_cons.mp hp with rfl | hp
    · exact pow_eq_zero_iff (by norm_num) |>.mp h3
    · exact ih h4 p hp

/-- Three points of one circle that lie on one line are not pairwise distinct:
stated for the chords `d = P2 - P1` and `e = P3 - P1` from a point `(u, v)`. -/
theorem chords_collinear (u v d1 d2 e1 e2 s : ℚ)
    (h1 : u ^ 2 + v ^ 2 = s)
    (h2 : (u + d1) ^ 2 + (v + d2) ^ 2 = s)
    (h3 : (u + e1) ^ 2 + (v + e2) ^ 2 = s)
    (hc : d1 * e2 - d2 * e1 = 0) :
    (d1 = 0 ∧ d2 = 0) ∨ (e1 = 0 ∧ e2 = 0) ∨ (d1 = e1 ∧ d2 = e2) := by
  have sq0 : ∀ a b : ℚ, a ^ 2 + b ^ 2 = 0 → a = 0 ∧ b = 0 := by
    intro a b h
    have ha : a ^ 2 = 0 := by nlinarith [sq_nonneg a, sq_nonneg b]
    have hb : b ^ 2 = 0 := by nlinarith [sq_nonneg a, sq_nonneg b]
    exact ⟨pow_eq_zero_iff (by norm_num) |>.mp ha, pow_eq_zero_iff (by norm_num) |>.mp hb⟩
  by_cases hd : d1 ^ 2 + d2 ^ 2 = 0
  · exact Or.inl (sq0 _ _ hd)
  by_cases he : e1 ^ 2 + e2 ^ 2 = 0
  · exact Or.inr (Or.inl (sq0 _ _ he))
  have ha : (d1 ^ 2 + d2 ^ 2) * e1 = (e1 ^ 2 + e2 ^ 2) * d1 := by
    linear_combination e1 * (h2 - h1) - d1 * (h3 - h1) + 2 * v * hc
  have hb : (d1 ^ 2 + d2 ^ 2) * e2 = (e1 ^ 2 + e2 ^ 2) * d2 := by
    linear_combination e2 * (h2 - h1) - d2 * (h3 - h1) - 2 * u * hc
  have k1 : (e1 ^ 2 + e2 ^ 2) * ((d1 ^ 2 + d2 ^ 2) - (d1 * e1 + d2 * e2)) = 0 := by
    linear_combination e1 * ha + e2 * hb
  have k2 : (d1 ^ 2 + d2 ^ 2) * ((d1 * e1 + d2 * e2) - (e1 ^ 2 + e2 ^ 2)) = 0 := by
    linear_combination d1 * ha + d2 * hb
  have k1' := (mul_eq_zero.mp k1).resolve_left he
  have k2' := (mul_eq_zero.mp k2).resolve_left hd
  have k3 : (d1 - e1) ^ 2 + (d2 - e2) ^ 2 = 0 := by linear_combination k1' - k2'
  obtain ⟨k4, k5⟩ := sq0 _ _ k3
  exact Or.inr (Or.inr ⟨by linarith, by linarith⟩)

/-- Two points with the same rational coordinates are equal. -/
theorem point_eq_of_cast (p q : Point) (hx : (q.x : ℚ) - (p.x : ℚ) = 0)
    (hy : (q.y : ℚ) - (p.y : ℚ) = 0) : p = q := by
  have h1 : (p.x : ℚ) = (q.x : ℚ) := by linarith
  have h2 : (p.y : ℚ) = (q.y : ℚ) := by linarith
  cases p
  cases q
  simp only [Point.mk.injEq]
  exact ⟨by exact_mod_cast h1, by exact_mod_cast h2⟩

/-- The matrix `D` built from twelve points of one circle, three of them
distinct, is regular (whatever the translation `mean`). -/
theorem matD_regular (mean : Point) (pts : List Point) (a b s : ℚ)
    (hlen : pts.length = 12)
    (hon : ∀ p ∈ pts, ((p.x : ℚ) - a) ^ 2 + ((p.y : ℚ) - b) ^ 2 = s)
    (hdist : ∃ p ∈ pts, ∃ q ∈ pts, ∃ t ∈ pts, p ≠ q ∧ q ≠ t ∧ p ≠ t) :
    det3 (matD (momentSums mean pts)) ≠ 0 := by
  intro hdet
  obtain ⟨x, y, z, hne, e0, e1, e2⟩ := det3_eq_zero_kernel _ hdet
  have htake : pts.take 12 = pts := by
    apply List.take_of_length_le
    simp [hlen]
  have hq := foldl_accumulate_quadform mean x y z pts ⟨0, 0, 0, 0, 0, 0, 0, 0, 0⟩ 0
  simp only [matD, momentSums, nNumPoints, htake] at e0 e1 e2
  push_cast at e0 e1 e2
  rw [hlen] at hq
  push_cast at hq
  have hsum : (pts.map (fun p => (2 * x * ((p.x : ℚ) - (mean.x : ℚ))
      + 2 * y * ((p.y : ℚ) - (mean.y : ℚ)) + z) ^ 2)).sum = 0 := by
    linear_combination (-1 : ℚ) * hq + 2 * x * e1 + 2 * y * e2 + z * e0
  have hline := sum_sq_eq_zero
    (fun p : Point => 2 * x * ((p.x : ℚ) - (mean.x : ℚ))
      + 2 * y * ((p.y : ℚ) - (mean.y : ℚ)) + z) pts hsum
  obtain ⟨p, hp, q, hq', t, ht, hpq, hqt, hpt⟩ := hdist
  have lp := hline p hp
  have lq := hline q hq'
  have lt := hline t ht
  simp only at lp lq lt
  have cp := hon p hp
  have cq := hon q hq'
  have ct := hon t ht
  by_cases hc : ((q.x : ℚ) - (p.x : ℚ)) * ((t.y : ℚ) - (p.y : ℚ))
      - ((q.y : ℚ) - (p.y : ℚ)) * ((t.x : ℚ) - (p.x : ℚ)) = 0
  · have h2 : ((p.x : ℚ) - a + ((q.x : ℚ) - (p.x : ℚ))) ^ 2
        + ((p.y : ℚ) - b + ((q.y : ℚ) - (p.y : ℚ))) ^ 2 = s := by
      rw [← cq]; ring
    have h3 : ((p.x : ℚ) - a + ((t.x : ℚ) - (p.x : ℚ))) ^ 2
        + ((p.y : ℚ) - b + ((t.y : ℚ) - (p.y : ℚ))) ^ 2 = s := by
      rw [← ct]; ring
    rcases chords_collinear _ _ _ _ _ _ s cp h2 h3 hc with ⟨k1, k2⟩ | ⟨k1, k2⟩ | ⟨k1, k2⟩
    · exact hpq (point_eq_of_cast p q k1 k2)
    · exact hpt (point_eq_of_cast p t k1 k2)
    · exact hqt (point_eq_of_cast q t (by linarith) (by linarith))
  · have hx : x * (((q.x : ℚ) - (p.x : ℚ)) * ((t.y : ℚ) - (p.y : ℚ))
        - ((q.y : ℚ) - (p.y : ℚ)) * ((t.x : ℚ) - (p.x : ℚ))) = 0 := by
      linear_combination ((t.y : ℚ) - (p.y : ℚ)) / 2 * (lq - lp)
        - ((q.y : ℚ) - (p.y : ℚ)) / 2 * (lt - lp)
    have hy : y * (((q.x : ℚ) - (p.x : ℚ)) * ((t.y : ℚ) - (p.y : ℚ))
        - ((q.y : ℚ) - (p.y : ℚ)) * ((t.x : ℚ) - (p.x : ℚ))) = 0 := by
      linear_combination ((q.x : ℚ) - (p.x : ℚ)) / 2 * (lt - lp)
        - ((t.x : ℚ) - (p.x : ℚ)) / 2 * (lq - lp)
    have x0 := (mul_eq_zero.mp hx).resolve_right hc
    have y0 := (mul_eq_zero.mp hy).resolve_right hc
    have z0 : z = 0 := by
      rw [x0, y0] at lp
      linarith
    exact hne ⟨x0, y0, z0⟩

/-- The system `D * Q = E` is solved by the centre and radius of a circle
through all twelve points, in coordinates translated by `mean`. -/
theorem circle_solves_system (mean : Point) (pts : List Point) (a b s : ℚ)
    (hlen : pts.length = 12)
    (hon : ∀ p ∈ pts, ((p.x : ℚ) - a) ^ 2 + ((p.y : ℚ) - b) ^ 2 = s) :
    mulVec3 (matD (momentSums mean pts))
        ⟨a - mean.x, b - mean.y, s - (a - mean.x) ^ 2 - (b - mean.y) ^ 2⟩
      = vecE (momentSums mean pts) := by
  have htake : pts.take 12 = pts := by
    apply List.take_of_length_le
    simp [hlen]
  have hsys := foldl_accumulate_system mean (a - mean.x) (b - mean.y)
    (s - (a - mean.x) ^ 2 - (b - mean.y) ^ 2) pts
    (by
      intro p hp
      have := hon p hp
      push_cast
      linear_combination this)
    ⟨0, 0, 0, 0, 0, 0, 0, 0, 0⟩ 0 (by simp) (by simp) (by simp)
  rw [hlen] at hsys
  obtain ⟨s0, s1, s2⟩ := hsys
  simp only [mulVec3, matD, vecE, momentSums, nNumPoints, htake, Vec3.mk.injEq]
  push_cast
  push_cast at s0 s1 s2
  refine ⟨?_, ?_, ?_⟩
  · linear_combination s0
  · linear_combination s1
  · linear_combination s2

/-! ## C1 -/

/-- C1: for twelve integer calibration points that all lie on the circle with
integer centre `(a, b)` and integer radius `r > 0`, three of them distinct, the
Circle Fit Estimator (exact arithmetic) returns `Cx = a`, `Cy = b`, `R = r`,
whatever the solver would leave in `Q` on failure. -/
theorem circleFit_exact (Q0 : Vec3) (pts : List Point) (a b r : Int)
    (hlen : pts.length = 12) (hr : 0 < r)
    (hon : ∀ p ∈ pts, (p.x - a) ^ 2 + (p.y - b) ^ 2 = r ^ 2)
    (hdist : ∃ p ∈ pts, ∃ q ∈ pts, ∃ t ∈ pts, p ≠ q ∧ q ≠ t ∧ p ≠ t) :
    circleFit Q0 pts = ⟨a, b, r⟩ := by
  have hon' : ∀ p ∈ pts, ((p.x : ℚ) - (a : ℚ)) ^ 2 + ((p.y : ℚ) - (b : ℚ)) ^ 2
      = ((r ^ 2 : Int) : ℚ) := by
    intro p hp
    have := hon p hp
    exact_mod_cast this
  have hreg := matD_regular (PointMean pts) pts a b ((r ^ 2 : Int) : ℚ) hlen hon' hdist
  have hsol := circle_solves_system (PointMean pts) pts a b ((r ^ 2 : Int) : ℚ) hlen hon'
  have hQ : (solve Q0 (matD (momentSums (PointMean pts) pts))
      (vecE (momentSums (PointMean pts) pts))).2
      = ⟨(a : ℚ) - ((PointMean pts).x : ℚ), (b : ℚ) - ((PointMean pts).y : ℚ),
          ((r ^ 2 : Int) : ℚ) - ((a : ℚ) - ((PointMean pts).x : ℚ)) ^ 2
            - ((b : ℚ) - ((PointMean pts).y : ℚ)) ^ 2⟩ := by
    unfold solve
    rw [if_neg hreg, ← hsol]
    exact cramer3_mulVec3 _ _ hreg
  have hA : truncToInt ((a : ℚ) - ((PointMean pts).x : ℚ)) = a - (PointMean pts).x := by
    rw [← Int.cast_sub, truncToInt_intCast]
  have hB : truncToInt ((b : ℚ) - ((PointMean pts).y : ℚ)) = b - (PointMean pts).y := by
    rw [← Int.cast_sub, truncToInt_intCast]
  simp only [circleFit, hQ, radicand, hA, hB, FittedCircle.mk.injEq]
  refine ⟨by ring, by ring, ?_⟩
  have hrad : ((r ^ 2 : Int) : ℚ) - ((a : ℚ) - ((PointMean pts).x : ℚ)) ^ 2
      - ((b : ℚ) - ((PointMean pts).y : ℚ)) ^ 2
      + ((a : ℚ) - ((PointMean pts).x : ℚ)) * ((a : ℚ) - ((PointMean pts).x : ℚ))
      + ((b : ℚ) - ((PointMean pts).y : ℚ)) * ((b : ℚ) - ((PointMean pts).y : ℚ))
      = ((r ^ 2 : Int) : ℚ) := by ring
  rw [hrad]
  exact sqrtToInt_sq r hr

/-- C1, witness: the twelve lattice points of the circle with centre (50, 60)
and radius 40 give `Cx = 50`, `Cy = 60`, `R = 40`. -/
theorem circleFit_exact_witness :
    circleFit ⟨0, 0, 0⟩ circle50_60_40 = ⟨50, 60, 40⟩ :=
  circleFit_exact ⟨0, 0, 0⟩ circle50_60_40 50 60 40 (by decide) (by decide) (by decide)
    ⟨⟨90, 60⟩, by decide, ⟨10, 60⟩, by decide, ⟨50, 100⟩, by decide, by decide, by decide,
      by decide⟩

/-! ## C2 -/

/-- A run with a loadable image and the method argument of value 1 fits the
circle, generates the Midpoint-Circle map from it and ends with status 0. -/
theorem main_midpoint {K : Type} [LinearOrderedField K] (M : MathFns K) (env : Env)
    (argv : List String) (nWidth nHeight : Nat) (hargc : 4 ≤ argv.length)
    (himg : env.imread (argv.getD 1 "") = some (nWidth, nHeight))
    (hm : atoi (argv.getD 3 "").data = 1) :
    main M env argv
      = ⟨0, some MIDPOINTCIRCLE, some (circleFit env.Q0 env.aPoints),
          some (fun v u => midpointCirclePixel M (circleFit env.Q0 env.aPoints).Cx
            (circleFit env.Q0 env.aPoints).Cy (circleFit env.Q0 env.aPoints).R u v)⟩ := by
  have h3 : ¬ argv.length < 3 := by omega
  have h4 : argv.length ≥ 4 := hargc
  simp only [main, if_neg h3, himg, if_pos h4, hm, HEMICYLINDER, MIDPOINTCIRCLE]
  simp

theorem fdiv_of_ne {K : Type} [LinearOrderedField K] (a b : K) (h : b ≠ 0) :
    fdiv a b = some (a / b) := by
  simp [fdiv, h]

theorem fdiv_zero {K : Type} [LinearOrderedField K] (a : K) : fdiv a 0 = none := by
  simp [fdiv]

/-- A value in the `int` range is not changed by the reduction modulo 2^32. -/
theorem toInt32_of_range (z : Int) (h1 : -2147483648 ≤ z) (h2 : z ≤ 2147483647) :
    toInt32 z = z := by
  unfold toInt32
  norm_num
  omega

/-- The square of a radius of at most 46340 does not overflow `int`. -/
theorem toInt32_sq (R : Int) (hR : |R| ≤ 46340) : toInt32 (R * R) = R * R := by
  obtain ⟨h1, h2⟩ := abs_le.mp hR
  apply toInt32_of_range
  · nlinarith [mul_self_nonneg R]
  · nlinarith

theorem fsqrt_of_nonneg {K : Type} [LinearOrderedField K] (M : MathFns K) (x : K)
    (h : 0 ≤ x) : fsqrt M x = some (M.sqrt x) := by
  simp [fsqrt, not_lt.mpr h]

theorem fsqrt_of_neg {K : Type} [LinearOrderedField K] (M : MathFns K) (x : K)
    (h : x < 0) : fsqrt M x = none := by
  simp [fsqrt, h]

theorem fasin_of_mem {K : Type} [LinearOrderedField K] (M : MathFns K) (x : K)
    (h1 : -1 ≤ x) (h2 : x ≤ 1) : fasin M x = some (M.asin x) := by
  simp [fasin, not_lt.mpr h1, not_lt.mpr h2]

theorem fasin_of_not_mem {K : Type} [LinearOrderedField K] (M : MathFns K) (x : K)
    (h : x < -1 ∨ 1 < x) : fasin M x = none := by
  simp [fasin, h]

/-- The denominator `2 * AO1` of the general case does not vanish when the
numerator of `AO1` does not. -/
theorem two_AO1_ne_zero {K : Type} [LinearOrderedField K] (s xt : K) (hs : s ≠ 0)
    (hx : xt ≠ 0) : 2 * (s / (2 * xt)) ≠ 0 :=
  mul_ne_zero two_ne_zero (div_ne_zero hs (mul_ne_zero two_ne_zero hx))

/-- The general case evaluates every formula when the radicand is positive,
the argument of `asin` lies in `[-1, 1]` and `PE` and `a + 1` are non-zero. -/
theorem midpointGeneral_some {K : Type} [LinearOrderedField K] (M : MathFns K) (R : Int)
    (xt yt : K) (hx : xt ≠ 0)
    (hs : 0 < xt * xt + ((toInt32 (R * R) : Int) : K))
    (hq1 : -1 ≤ M.sqrt (xt * xt + ((toInt32 (R * R) : Int) : K))
      / (2 * ((xt * xt + ((toInt32 (R * R) : Int) : K)) / (2 * xt))))
    (hq2 : M.sqrt (xt * xt + ((toInt32 (R * R) : Int) : K))
      / (2 * ((xt * xt + ((toInt32 (R * R) : Int) : K)) / (2 * xt))) ≤ 1)
    (hPE : (R : K) - yt ≠ 0)
    (ha : yt / ((R : K) - yt) + 1 ≠ 0) :
    midpointGeneral M R xt yt
      = some { AO1 := (xt * xt + ((toInt32 (R * R) : Int) : K)) / (2 * xt)
               AB := M.sqrt (xt * xt + ((toInt32 (R * R) : Int) : K))
               AP := yt
               PE := (R : K) - yt
               a := yt / ((R : K) - yt)
               b := 2 * M.asin (M.sqrt (xt * xt + ((toInt32 (R * R) : Int) : K))
                     / (2 * ((xt * xt + ((toInt32 (R * R) : Int) : K)) / (2 * xt))))
               alpha := yt / ((R : K) - yt)
                     * (2 * M.asin (M.sqrt (xt * xt + ((toInt32 (R * R) : Int) : K))
                         / (2 * ((xt * xt + ((toInt32 (R * R) : Int) : K)) / (2 * xt)))))
                     / (yt / ((R : K) - yt) + 1) } := by
  have h4 : (2 : K) * xt ≠ 0 := mul_ne_zero two_ne_zero hx
  simp only [midpointGeneral, bind, Option.bind_eq_bind, pure]
  rw [fdiv_of_ne _ _ h4, Option.some_bind, fsqrt_of_nonneg M _ (le_of_lt hs), Option.some_bind,
    fdiv_of_ne _ _ hPE, Option.some_bind,
    fdiv_of_ne _ _ (two_AO1_ne_zero _ xt (ne_of_gt hs) hx), Option.some_bind,
    fasin_of_mem M _ hq1 hq2, Option.some_bind, fdiv_of_ne _ _ ha, Option.some_bind]

/-- The general case with a negative radicand takes `sqrt` outside its domain. -/
theorem midpointGeneral_sqrt_neg {K : Type} [LinearOrderedField K] (M : MathFns K) (R : Int)
    (xt yt : K) (hs : xt * xt + ((toInt32 (R * R) : Int) : K) < 0) :
    midpointGeneral M R xt yt = none := by
  simp only [midpointGeneral, bind, Option.bind_eq_bind, pure]
  rw [fsqrt_of_neg M _ hs]
  cases fdiv (xt * xt + ((toInt32 (R * R) : Int) : K)) (2 * xt) <;> rfl

/-- The general case with the argument of `asin` outside `[-1, 1]` takes `asin`
outside its domain. -/
theorem midpointGeneral_asin_domain {K : Type} [LinearOrderedField K] (M : MathFns K) (R : Int)
    (xt yt : K) (hx : xt ≠ 0)
    (hs : 0 < xt * xt + ((toInt32 (R * R) : Int) : K))
    (hq : M.sqrt (xt * xt + ((toInt32 (R * R) : Int) : K))
        / (2 * ((xt * xt + ((toInt32 (R * R) : Int) : K)) / (2 * xt))) < -1 ∨
      1 < M.sqrt (xt * xt + ((toInt32 (R * R) : Int) : K))
        / (2 * ((xt * xt + ((toInt32 (R * R) : Int) : K)) / (2 * xt)))) :
    midpointGeneral M R xt yt = none := by
  have h4 : (2 : K) * xt ≠ 0 := mul_ne_zero two_ne_zero hx
  simp only [midpointGeneral, bind, Option.bind_eq_bind, pure]
  rw [fdiv_of_ne _ _ h4, Option.some_bind, fsqrt_of_nonneg M _ (le_of_lt hs), Option.some_bind]
  cases fdiv yt ((R : K) - yt) with
  | none => rfl
  | some a =>
    rw [Option.some_bind, fdiv_of_ne _ _ (two_AO1_ne_zero _ xt (ne_of_gt hs) hx),
      Option.some_bind, fasin_of_not_mem M _ hq]
    rfl

/-- The general case with `PE = 0` evaluates the division `AP / PE` by zero. -/
theorem midpointGeneral_PE_zero {K : Type} [LinearOrderedField K] (M : MathFns K) (R : Int)
    (xt yt : K) (hx : xt ≠ 0) (hPE : (R : K) - yt = 0) :
    midpointGeneral M R xt yt = none := by
  have h4 : (2 : K) * xt ≠ 0 := mul_ne_zero two_ne_zero hx
  simp only [midpointGeneral, bind, Option.bind_eq_bind, pure]
  rw [fdiv_of_ne _ _ h4, Option.some_bind, hPE, fdiv_zero]
  cases fsqrt M (xt * xt + ((toInt32 (R * R) : Int) : K)) <;> rfl

/-- The general case with `a + 1 = 0` evaluates the division by `a + 1` by zero. -/
theorem midpointGeneral_a_zero {K : Type} [LinearOrderedField K] (M : MathFns K) (R : Int)
    (xt yt : K) (hx : xt ≠ 0) (hPE : (R : K) - yt ≠ 0)
    (ha : yt / ((R : K) - yt) + 1 = 0) :
    midpointGeneral M R xt yt = none := by
  have h4 : (2 : K) * xt ≠ 0 := mul_ne_zero two_ne_zero hx
  simp only [midpointGeneral, bind, Option.bind_eq_bind, pure]
  rw [fdiv_of_ne _ _ h4, Option.some_bind]
  cases fsqrt M (xt * xt + ((toInt32 (R * R) : Int) : K)) with
  | none => rfl
  | some AB =>
    rw [Option.some_bind, fdiv_of_ne _ _ hPE, Option.some_bind]
    cases fdiv AB (2 * ((xt * xt + ((toInt32 (R * R) : Int) : K)) / (2 * xt))) with
    | none => rfl
    | some q =>
      rw [Option.some_bind]
      cases fasin M q with
      | none => rfl
      | some s => rw [Option.some_bind, ha, fdiv_zero, Option.none_bind]

/-- The argument of `asin`: `AB / (2 * AO1) = xt / sqrt (xt^2 + R^2)`. -/
theorem asin_argument_eq (R : Int) (xt : ℝ) (hx : xt ≠ 0) :
    Real.sqrt (xt * xt + ((R * R : Int) : ℝ))
        / (2 * ((xt * xt + ((R * R : Int) : ℝ)) / (2 * xt)))
      = xt / Real.sqrt (xt * xt + ((R * R : Int) : ℝ)) := by
  have h1 : 0 < xt * xt := mul_self_pos.mpr hx
  have h2 : (0 : ℝ) ≤ ((R * R : Int) : ℝ) := by
    have : (0 : Int) ≤ R * R := mul_self_nonneg R
    exact_mod_cast this
  have hs : 0 < xt * xt + ((R * R : Int) : ℝ) := by linarith
  have hsq : 0 < Real.sqrt (xt * xt + ((R * R : Int) : ℝ)) := Real.sqrt_pos.mpr hs
  have hmul := Real.mul_self_sqrt (le_of_lt hs)
  rw [div_eq_div_iff (mul_ne_zero two_ne_zero (div_ne_zero (ne_of_gt hs)
    (mul_ne_zero two_ne_zero hx))) (ne_of_gt hsq), hmul]
  field_simp
  ring

/-- The argument of `asin` lies in `[-1, 1]`, strictly inside for `R != 0`. -/
theorem asin_argument_bound (R : Int) (xt : ℝ) (hx : xt ≠ 0) :
    |xt / Real.sqrt (xt * xt + ((R * R : Int) : ℝ))| ≤ 1 ∧
    (R ≠ 0 → |xt / Real.sqrt (xt * xt + ((R * R : Int) : ℝ))| < 1) := by
  have h1 : 0 < xt * xt := mul_self_pos.mpr hx
  have h2 : (0 : ℝ) ≤ ((R * R : Int) : ℝ) := by
    have : (0 : Int) ≤ R * R := mul_self_nonneg R
    exact_mod_cast this
  have hs : 0 < xt * xt + ((R * R : Int) : ℝ) := by linarith
  have hsq : 0 < Real.sqrt (xt * xt + ((R * R : Int) : ℝ)) := Real.sqrt_pos.mpr hs
  rw [abs_div, abs_of_pos hsq]
  constructor
  · rw [div_le_one hsq]
    apply Real.abs_le_sqrt
    nlinarith
  · intro hR
    have h3 : (0 : ℝ) < ((R * R : Int) : ℝ) := by
      have : (0 : Int) < R * R := mul_self_pos.mpr hR
      exact_mod_cast this
    rw [div_lt_one hsq, Real.lt_sqrt (abs_nonneg xt), sq_abs]
    nlinarith

/-- The general case over the reals for a radius of at most 46340 (no `int`
overflow in `R * R`): the radicand is positive and the argument of `asin` is in
its domain, so every formula is evaluated when `PE` and `a + 1` are non-zero. -/
theorem midpointGeneral_some_real (M : MathFns ℝ) (hM : RealMath M) (R : Int)
    (hR : |R| ≤ 46340) (xt yt : ℝ) (hx : xt ≠ 0) (hPE : (R : ℝ) - yt ≠ 0)
    (ha : yt / ((R : ℝ) - yt) + 1 ≠ 0) :
    midpointGeneral M R xt yt
      = some { AO1 := (xt * xt + ((R * R : Int) : ℝ)) / (2 * xt)
               AB := M.sqrt (xt * xt + ((R * R : Int) : ℝ))
               AP := yt
               PE := (R : ℝ) - yt
               a := yt / ((R : ℝ) - yt)
               b := 2 * M.asin (M.sqrt (xt * xt + ((R * R : Int) : ℝ))
                     / (2 * ((xt * xt + ((R * R : Int) : ℝ)) / (2 * xt))))
               alpha := yt / ((R : ℝ) - yt)
                     * (2 * M.asin (M.sqrt (xt * xt + ((R * R : Int) : ℝ))
                         / (2 * ((xt * xt + ((R * R : Int) : ℝ)) / (2 * xt)))))
                     / (yt / ((R : ℝ) - yt) + 1) } := by
  obtain ⟨_, hsqrt, _, _, _, _, _, _⟩ := hM
  have e := toInt32_sq R hR
  have h1 : 0 < xt * xt := mul_self_pos.mpr hx
  have h2 : (0 : ℝ) ≤ ((R * R : Int) : ℝ) := by
    have : (0 : Int) ≤ R * R := mul_self_nonneg R
    exact_mod_cast this
  have hb := abs_le.mp (asin_argument_bound R xt hx).1
  have h := midpointGeneral_some M R xt yt hx (by rw [e]; linarith)
    (by rw [e, hsqrt, asin_argument_eq R xt hx]; exact hb.1)
    (by rw [e, hsqrt, asin_argument_eq R xt hx]; exact hb.2) hPE ha
  rw [e] at h
  exact h

/-- The pixel of a column `u != Cx` is undefined exactly through the general case. -/
theorem midpointCirclePixel_of_general_none {K : Type} [LinearOrderedField K] (M : MathFns K)
    (Cx Cy R : Int) (u v : Nat) (hu : (u : Int) ≠ Cx)
    (hg : midpointGeneral M R ((((u : Int) - Cx : Int)) : K) ((((v : Int) - Cy : Int)) : K)
      = none) :
    midpointCirclePixel M Cx Cy R u v = none := by
  have hx : ((((u : Int) - Cx : Int)) : K) ≠ 0 := by
    intro h
    apply hu
    have h' : (u : Int) - Cx = 0 := by exact_mod_cast h
    omega
  simp only [midpointCirclePixel, midpointOffset, if_pos hx, bind, Option.bind_eq_bind, pure,
    hg, Option.none_bind]

/-- On the column `u = Cx` the limiting case stores the pixel's own coordinates. -/
theorem midpointCirclePixel_limiting {K : Type} [LinearOrderedField K] (M : MathFns K)
    (Cx Cy R : Int) (u v : Nat) (hu : (u : Int) = Cx) :
    midpointCirclePixel M Cx Cy R u v = some ((u : K), (v : K)) := by
  subst hu
  simp [midpointCirclePixel, midpointOffset]

/-! ## C3 -/

/-- C3: on the column `u = Cx` (so `xt = 0`) the Midpoint-Circle Generator
stores `mapX = u` and `mapY = v` for every row `v`, every circle and every
math library (exact arithmetic). -/
theorem midpoint_limiting_identity {K : Type} [LinearOrderedField K] (M : MathFns K)
    (Cx Cy R : Int) (u v : Nat) (hu : (u : Int) = Cx) :
    midpointCirclePixel M Cx Cy R u v = some ((u : K), (v : K)) := by
  have hxt : ((((u : Int) - Cx : Int)) : K) = 0 := by
    rw [hu, sub_self, Int.cast_zero]
  have hoff : midpointOffset M R ((((u : Int) - Cx : Int)) : K) ((((v : Int) - Cy : Int)) : K)
      = some (0, ((((v : Int) - Cy : Int)) : K)) := by
    simp [midpointOffset, hxt]
  simp only [midpointCirclePixel, bind, Option.bind_eq_bind, pure, hoff, Option.some_bind]
  rw [← hu]
  push_cast
  simp

/-- C3, witness: the circle `(150, 150, 100)` at the pixel `u = 150`, `v = 7`. -/
theorem midpoint_limiting_identity_witness :
    midpointCirclePixel (K := ℝ) ⟨Real.pi, Real.sqrt, Real.sin, Real.cos, Real.arcsin,
      Real.arctan, fun x => |x|, fun x y => x ^ y⟩ 150 150 100 150 7
      = some (((150 : Nat) : ℝ), ((7 : Nat) : ℝ)) :=
  midpoint_limiting_identity _ 150 150 100 150 7 (by decide)

/-! ## C5 -/

/-- The scan of the two-row column holding `mapY = v`. -/
theorem scanColumn_two_rows : scanColumn 2 (fun w => ((w : Nat) : ℝ)) = (0, 1) := by
  simp [scanColumn, List.range_succ]

/-- The Normalizer on a column whose range is non-zero and at most the height. -/
theorem normalizeCell_small_range {K : Type} [LinearOrderedField K] (M : MathFns K)
    (nHeight : Nat) (Cy : Int) (transformMapY : Nat → Nat → K) (u v : Nat)
    (hH : 0 < nHeight)
    (hle : (scanColumn nHeight (fun w => transformMapY w u)).2
      - (scanColumn nHeight (fun w => transformMapY w u)).1 ≤ (nHeight : K))
    (hne : (scanColumn nHeight (fun w => transformMapY w u)).2
      - (scanColumn nHeight (fun w => transformMapY w u)).1 ≠ 0) :
    normalizeCell M nHeight Cy transformMapY u v
      = some ((u : K),
          ((((v : Int) - Cy : Int)) : K)
            / (((scanColumn nHeight (fun w => transformMapY w u)).2
                - (scanColumn nHeight (fun w => transformMapY w u)).1) / (nHeight : K))
            + (Cy : K)) := by
  have hH' : (0 : K) < (nHeight : K) := by exact_mod_cast hH
  have hH0 : (nHeight : K) ≠ 0 := ne_of_gt hH'
  have hf : ¬ ((scanColumn nHeight (fun w => transformMapY w u)).2
      - (scanColumn nHeight (fun w => transformMapY w u)).1) / (nHeight : K) > 1 := by
    rw [gt_iff_lt, not_lt, div_le_one hH']
    exact hle
  simp only [normalizeCell, columnFactor, bind, Option.bind_eq_bind, pure]
  rw [fdiv_of_ne _ _ hH0, Option.some_bind, if_neg hf, Option.some_bind,
    fdiv_of_ne _ _ (div_ne_zero hne hH0), Option.some_bind]

/-- C5 (as stated, refuted): the column `u = Cx = 0` of the Midpoint-Circle map
of a two-row image holds `mapY = v`; its range `1` is below the height `2`,
yet the Normalizer rewrites row `1` to `2`, not to the previous value `1`. -/
theorem normalizer_changes_small_range_column :
    midpointCirclePixel (K := ℝ) ⟨Real.pi, Real.sqrt, Real.sin, Real.cos, Real.arcsin,
      Real.arctan, fun x => |x|, fun x y => x ^ y⟩ 0 0 1 0 0 = some (0, 0) ∧
    midpointCirclePixel (K := ℝ) ⟨Real.pi, Real.sqrt, Real.sin, Real.cos, Real.arcsin,
      Real.arctan, fun x => |x|, fun x y => x ^ y⟩ 0 0 1 0 1 = some (0, 1) ∧
    (scanColumn 2 (fun w => ((w : Nat) : ℝ))).2 - (scanColumn 2 (fun w => ((w : Nat) : ℝ))).1
      ≤ ((2 : Nat) : ℝ) ∧
    normalizeCell (K := ℝ) ⟨Real.pi, Real.sqrt, Real.sin, Real.cos, Real.arcsin,
      Real.arctan, fun x => |x|, fun x y => x ^ y⟩ 2 0 (fun w _ => ((w : Nat) : ℝ)) 0 1
      = some (0, 2) ∧
    (2 : ℝ) ≠ (fun w (_ : Nat) => ((w : Nat) : ℝ)) 1 0 := by
  refine ⟨?_, ?_, ?_, ?_, ?_⟩
  · rw [midpointCirclePixel_limiting _ 0 0 1 0 0 (by decide)]
    simp
  · rw [midpointCirclePixel_limiting _ 0 0 1 0 1 (by decide)]
    simp
  · rw [scanColumn_two_rows]
    norm_num
  · rw [normalizeCell_small_range _ 2 0 _ 0 1 (by decide)
      (by rw [scanColumn_two_rows]; norm_num) (by rw [scanColumn_two_rows]; norm_num)]
    rw [scanColumn_two_rows]
    norm_num
  · norm_num

/-- C5 (amended): for a column whose range `max_y1 - min_y1` is non-zero and at
most the image height, `factor = range / height` is used as it is, and the
Normalizer rewrites every row to `mapX = u`, `mapY = (v - Cy) / factor + Cy`,
whatever value `mapY[v][u]` held before. -/
theorem normalizer_rewrites_small_range {K : Type} [LinearOrderedField K] (M : MathFns K)
    (nHeight : Nat) (Cy : Int) (transformMapY : Nat → Nat → K) (u v : Nat)
    (hH : 0 < nHeight)
    (hle : (scanColumn nHeight (fun w => transformMapY w u)).2
      - (scanColumn nHeight (fun w => transformMapY w u)).1 ≤ (nHeight : K))
    (hne : (scanColumn nHeight (fun w => transformMapY w u)).2
      - (scanColumn nHeight (fun w => transformMapY w u)).1 ≠ 0) :
    normalizeCell M nHeight Cy transformMapY u v
      = some ((u : K),
          ((((v : Int) - Cy : Int)) : K)
            / (((scanColumn nHeight (fun w => transformMapY w u)).2
                - (scanColumn nHeight (fun w => transformMapY w u)).1) / (nHeight : K))
            + (Cy : K)) :=
  normalizeCell_small_range M nHeight Cy transformMapY u v hH hle hne

/-- C5 (amended), witness: the two-row column holding `mapY = v`, at row 1. -/
theorem normalizer_rewrites_small_range_witness :
    normalizeCell (K := ℝ) ⟨Real.pi, Real.sqrt, Real.sin, Real.cos, Real.arcsin,
      Real.arctan, fun x => |x|, fun x y => x ^ y⟩ 2 0 (fun w _ => ((w : Nat) : ℝ)) 0 1
      = some (((0 : Nat) : ℝ),
          (((((1 : Nat) : Int) - 0 : Int)) : ℝ)
            / (((scanColumn 2 (fun w => (fun w (_ : Nat) => ((w : Nat) : ℝ)) w 0)).2
                - (scanColumn 2 (fun w => (fun w (_ : Nat) => ((w : Nat) : ℝ)) w 0)).1)
                / ((2 : Nat) : ℝ))
            + ((0 : Int) : ℝ)) :=
  normalizer_rewrites_small_range _ 2 0 (fun w _ => ((w : Nat) : ℝ)) 0 1 (by decide)
    (by rw [scanColumn_two_rows]; norm_num) (by rw [scanColumn_two_rows]; norm_num)

/-! ## C9 -/

/-- A pixel with `u != Cx` and `v - Cy = R` divides by `PE = 0`. -/
theorem midpointCirclePixel_PE_zero {K : Type} [LinearOrderedField K] (M : MathFns K)
    (Cx Cy R : Int) (u v : Nat) (hu : (u : Int) ≠ Cx) (hv : (v : Int) - Cy = R) :
    midpointCirclePixel M Cx Cy R u v = none := by
  have hx : ((((u : Int) - Cx : Int)) : K) ≠ 0 := by
    intro h
    apply hu
    have h' : (u : Int) - Cx = 0 := by exact_mod_cast h
    omega
  apply midpointCirclePixel_of_general_none M Cx Cy R u v hu
  apply midpointGeneral_PE_zero M R _ _ hx
  rw [hv]
  simp

/-- A pixel with `u != Cx` and `R = 0` off the row `v = Cy` divides by `a + 1 = 0`. -/
theorem midpointCirclePixel_R_zero {K : Type} [LinearOrderedField K] (M : MathFns K)
    (Cx Cy : Int) (u v : Nat) (hu : (u : Int) ≠ Cx) :
    midpointCirclePixel M Cx Cy 0 u v = none := by
  have hx : ((((u : Int) - Cx : Int)) : K) ≠ 0 := by
    intro h
    apply hu
    have h' : (u : Int) - Cx = 0 := by exact_mod_cast h
    omega
  apply midpointCirclePixel_of_general_none M Cx Cy 0 u v hu
  by_cases hy : ((((v : Int) - Cy : Int)) : K) = 0
  · apply midpointGeneral_PE_zero M 0 _ _ hx
    rw [hy]
    simp
  · have hPE : (((0 : Int)) : K) - ((((v : Int) - Cy : Int)) : K) ≠ 0 := by
      rw [Int.cast_zero, zero_sub]
      exact neg_ne_zero.mpr hy
    apply midpointGeneral_a_zero M 0 _ _ hx hPE
    rw [Int.cast_zero, zero_sub, div_neg, div_self hy]
    norm_num

/-- C9 (code evaluated at the failing input): for the circle `Cx = Cy = 150`,
`R = 100` the pixel `u = 50`, `v = 250` has `xt = -100`, `yt = R`, so `PE = 0`:
the general case evaluates `AP / PE` with a zero denominator and no guard
replaces it, the stored map value is not defined. -/
theorem midpoint_PE_zero_unguarded :
    midpointCirclePixel (K := ℝ) ⟨Real.pi, Real.sqrt, Real.sin, Real.cos, Real.arcsin,
      Real.arctan, fun x => |x|, fun x y => x ^ y⟩ 150 150 100 50 250 = none :=
  midpointCirclePixel_PE_zero _ 150 150 100 50 250 (by decide) (by decide)

/-! ## C10 -/

/-- A run with a loadable image whose method value is 0 (or whose method
argument is absent) generates the Hemicylinder map and ends with status 0. -/
theorem main_hemicylinder {K : Type} [LinearOrderedField K] (M : MathFns K) (env : Env)
    (argv : List String) (nWidth nHeight : Nat) (hargc : 3 ≤ argv.length)
    (himg : env.imread (argv.getD 1 "") = some (nWidth, nHeight))
    (hm : argv.length < 4 ∨ atoi (argv.getD 3 "").data = 0) :
    main M env argv
      = ⟨0, some HEMICYLINDER, none,
          some (fun v u =>
            (hemicylinderPixel M .EQUIDISTANT nWidth nHeight u v).map
              (fun p => (p.mapX, p.mapY)))⟩ := by
  have h3 : ¬ argv.length < 3 := by omega
  rcases hm with hm | hm
  · have h4 : ¬ argv.length ≥ 4 := by omega
    simp only [main, if_neg h3, himg, if_neg h4, HEMICYLINDER]
    simp
  · by_cases h4 : argv.length ≥ 4
    · simp only [main, if_neg h3, himg, if_pos h4, hm, HEMICYLINDER]
      simp
    · simp only [main, if_neg h3, himg, if_neg h4, HEMICYLINDER]
      simp

/-- A run with a loadable image whose method value is neither 0 nor 1 is
rejected with status -1 before any map is generated. -/
theorem main_rejected {K : Type} [LinearOrderedField K] (M : MathFns K) (env : Env)
    (argv : List String) (nWidth nHeight : Nat) (hargc : 4 ≤ argv.length)
    (himg : env.imread (argv.getD 1 "") = some (nWidth, nHeight))
    (h0 : atoi (argv.getD 3 "").data ≠ 0) (h1 : atoi (argv.getD 3 "").data ≠ 1) :
    main M env argv = ⟨-1, some (atoi (argv.getD 3 "").data), none, none⟩ := by
  have h3 : ¬ argv.length < 3 := by omega
  have h4 : argv.length ≥ 4 := hargc
  have e0 : ¬ (0 : Int) = atoi (argv.getD 3 "").data := fun h => h0 h.symm
  have e1 : ¬ (1 : Int) = atoi (argv.getD 3 "").data := fun h => h1 h.symm
  simp only [main, if_neg h3, himg, if_pos h4, HEMICYLINDER, MIDPOINTCIRCLE, if_neg e0,
    if_neg e1]

/-- C10 (as stated, refuted): the unrecognized, non-numeric method argument
`abc` is not rejected: `atoi` reads it as 0, the run selects Hemicylinder,
generates a map and ends with status 0. -/
theorem non_numeric_method_not_rejected :
    atoi ("abc").data = 0 ∧
    (main (K := ℝ) ⟨Real.pi, Real.sqrt, Real.sin, Real.cos, Real.arcsin, Real.arctan,
        fun x => |x|, fun x y => x ^ y⟩ (envWith []) (argvWith "abc")).status = 0 ∧
    (main (K := ℝ) ⟨Real.pi, Real.sqrt, Real.sin, Real.cos, Real.arcsin, Real.arctan,
        fun x => |x|, fun x y => x ^ y⟩ (envWith []) (argvWith "abc")).eMethod
      = some HEMICYLINDER ∧
    (main (K := ℝ) ⟨Real.pi, Real.sqrt, Real.sin, Real.cos, Real.arcsin, Real.arctan,
        fun x => |x|, fun x y => x ^ y⟩ (envWith [])
        (argvWith "abc")).transformMap.isSome = true := by
  have h := main_hemicylinder (K := ℝ) ⟨Real.pi, Real.sqrt, Real.sin, Real.cos,
    Real.arcsin, Real.arctan, fun x => |x|, fun x y => x ^ y⟩ (envWith [])
    (argvWith "abc") 300 300 (by decide) (by rfl) (Or.inr (by decide))
  rw [h]
  exact ⟨by decide, rfl, rfl, rfl⟩

/-- C10 (amended): with a loadable image, an absent method argument selects
Hemicylinder; a present one is read by `atoi`: the value 0 (the argument `0`,
and any text without leading number) selects Hemicylinder, the value 1 (the
argument `1`) selects Midpoint-Circle, and every other value is rejected with
status -1 and no coordinate map. -/
theorem method_selection {K : Type} [LinearOrderedField K] (M : MathFns K) (env : Env)
    (argv : List String) (nWidth nHeight : Nat) (hargc : 3 ≤ argv.length)
    (himg : env.imread (argv.getD 1 "") = some (nWidth, nHeight)) :
    atoi ("0").data = 0 ∧ atoi ("1").data = 1 ∧
    (argv.length < 4 ∨ atoi (argv.getD 3 "").data = 0 →
      (main M env argv).status = 0 ∧ (main M env argv).eMethod = some HEMICYLINDER ∧
      (main M env argv).transformMap
        = some (fun v u => (hemicylinderPixel M .EQUIDISTANT nWidth nHeight u v).map
            (fun p => (p.mapX, p.mapY)))) ∧
    (4 ≤ argv.length → atoi (argv.getD 3 "").data = 1 →
      (main M env argv).status = 0 ∧ (main M env argv).eMethod = some MIDPOINTCIRCLE ∧
      (main M env argv).transformMap
        = some (fun v u => midpointCirclePixel M (circleFit env.Q0 env.aPoints).Cx
            (circleFit env.Q0 env.aPoints).Cy (circleFit env.Q0 env.aPoints).R u v)) ∧
    (4 ≤ argv.length → atoi (argv.getD 3 "").data ≠ 0 → atoi (argv.getD 3 "").data ≠ 1 →
      (main M env argv).status = -1 ∧ (main M env argv).transformMap = none) := by
  refine ⟨by decide, by decide, ?_, ?_, ?_⟩
  · intro hm
    rw [main_hemicylinder M env argv nWidth nHeight hargc himg hm]
    exact ⟨rfl, rfl, rfl⟩
  · intro h4 hm
    rw [main_midpoint M env argv nWidth nHeight h4 himg hm]
    exact ⟨rfl, rfl, rfl⟩
  · intro h4 h0 h1
    rw [main_rejected M env argv nWidth nHeight h4 himg h0 h1]
    exact ⟨rfl, rfl⟩

/-- C10 (amended), witness: the command line with the method argument `2`. -/
theorem method_selection_witness :
    atoi ("0").data = 0 ∧ atoi ("1").data = 1 ∧
    ((argvWith "2").length < 4 ∨ atoi ((argvWith "2").getD 3 "").data = 0 →
      (main (K := ℝ) ⟨Real.pi, Real.sqrt, Real.sin, Real.cos, Real.arcsin, Real.arctan,
        fun x => |x|, fun x y => x ^ y⟩ (envWith []) (argvWith "2")).status = 0 ∧
      (main (K := ℝ) ⟨Real.pi, Real.sqrt, Real.sin, Real.cos, Real.arcsin, Real.arctan,
        fun x => |x|, fun x y => x ^ y⟩ (envWith []) (argvWith "2")).eMethod
        = some HEMICYLINDER ∧
      (main (K := ℝ) ⟨Real.pi, Real.sqrt, Real.sin, Real.cos, Real.arcsin, Real.arctan,
        fun x => |x|, fun x y => x ^ y⟩ (envWith []) (argvWith "2")).transformMap
        = some (fun v u => (hemicylinderPixel (K := ℝ) ⟨Real.pi, Real.sqrt, Real.sin,
            Real.cos, Real.arcsin, Real.arctan, fun x => |x|, fun x y => x ^ y⟩
            .EQUIDISTANT 300 300 u v).map (fun p => (p.mapX, p.mapY)))) ∧
    (4 ≤ (argvWith "2").length → atoi ((argvWith "2").getD 3 "").data = 1 →
      (main (K := ℝ) ⟨Real.pi, Real.sqrt, Real.sin, Real.cos, Real.arcsin, Real.arctan,
        fun x => |x|, fun x y => x ^ y⟩ (envWith []) (argvWith "2")).status = 0 ∧
      (main (K := ℝ) ⟨Real.pi, Real.sqrt, Real.sin, Real.cos, Real.arcsin, Real.arctan,
        fun x => |x|, fun x y => x ^ y⟩ (envWith []) (argvWith "2")).eMethod
        = some MIDPOINTCIRCLE ∧
      (main (K := ℝ) ⟨Real.pi, Real.sqrt, Real.sin, Real.cos, Real.arcsin, Real.arctan,
        fun x => |x|, fun x y => x ^ y⟩ (envWith []) (argvWith "2")).transformMap
        = some (fun v u => midpointCirclePixel (K := ℝ) ⟨Real.pi, Real.sqrt, Real.sin,
            Real.cos, Real.arcsin, Real.arctan, fun x => |x|, fun x y => x ^ y⟩
            (circleFit (envWith []).Q0 (envWith []).aPoints).Cx
            (circleFit (envWith []).Q0 (envWith []).aPoints).Cy
            (circleFit (envWith []).Q0 (envWith []).aPoints).R u v)) ∧
    (4 ≤ (argvWith "2").length → atoi ((argvWith "2").getD 3 "").data ≠ 0 →
      atoi ((argvWith "2").getD 3 "").data ≠ 1 →
      (main (K := ℝ) ⟨Real.pi, Real.sqrt, Real.sin, Real.cos, Real.arcsin, Real.arctan,
        fun x => |x|, fun x y => x ^ y⟩ (envWith []) (argvWith "2")).status = -1 ∧
      (main (K := ℝ) ⟨Real.pi, Real.sqrt, Real.sin, Real.cos, Real.arcsin, Real.arctan,
        fun x => |x|, fun x y => x ^ y⟩ (envWith []) (argvWith "2")).transformMap = none) :=
  method_selection (K := ℝ) ⟨Real.pi, Real.sqrt, Real.sin, Real.cos, Real.arcsin,
    Real.arctan, fun x => |x|, fun x y => x ^ y⟩ (envWith []) (argvWith "2") 300 300
    (by decide) (by rfl)

/-! ## Hemicylinder Generator: auxiliary facts -/

/-- The angle `alpha = (nWidth - u) / r` with `r = nWidth / pi`. -/
theorem hemi_alpha_eq (W u : Nat) (hW : 0 < W) :
    ((W : ℝ) - (u : ℝ)) / ((W : ℝ) / Real.pi) = ((W : ℝ) - (u : ℝ)) * Real.pi / (W : ℝ) := by
  have h1 : (W : ℝ) ≠ 0 := by exact_mod_cast (Nat.pos_iff_ne_zero.mp hW)
  field_simp

theorem hemi_alpha_pos (W u : Nat) (huW : u < W) :
    0 < ((W : ℝ) - (u : ℝ)) / ((W : ℝ) / Real.pi) := by
  have h1 : (u : ℝ) < (W : ℝ) := by exact_mod_cast huW
  have h2 : (0 : ℝ) < (W : ℝ) := by exact_mod_cast (Nat.zero_lt_of_lt huW)
  exact div_pos (by linarith) (div_pos h2 Real.pi_pos)

theorem hemi_alpha_lt_pi (W u : Nat) (hu : 0 < u) (huW : u < W) :
    ((W : ℝ) - (u : ℝ)) / ((W : ℝ) / Real.pi) < Real.pi := by
  have h0 : (0 : ℝ) < (u : ℝ) := by exact_mod_cast hu
  have h2 : (0 : ℝ) < (W : ℝ) := by exact_mod_cast (Nat.zero_lt_of_lt huW)
  rw [hemi_alpha_eq W u (Nat.zero_lt_of_lt huW), div_lt_iff₀ h2]
  nlinarith [Real.pi_pos]

theorem hemi_sin_pos (W u : Nat) (hu : 0 < u) (huW : u < W) :
    0 < Real.sin (((W : ℝ) - (u : ℝ)) / ((W : ℝ) / Real.pi)) :=
  Real.sin_pos_of_pos_of_lt_pi (hemi_alpha_pos W u huW) (hemi_alpha_lt_pi W u hu huW)

/-- The angle compared with `pi / 2`, in terms of the column. -/
theorem hemi_alpha_lt_half (W u : Nat) (huW : u < W) :
    ((W : ℝ) - (u : ℝ)) / ((W : ℝ) / Real.pi) < Real.pi / 2 ↔ W < 2 * u := by
  have h2 : (0 : ℝ) < (W : ℝ) := by exact_mod_cast (Nat.zero_lt_of_lt huW)
  rw [hemi_alpha_eq W u (Nat.zero_lt_of_lt huW), div_lt_iff₀ h2]
  constructor
  · intro h
    have h3 : (W : ℝ) < 2 * (u : ℝ) := by nlinarith [Real.pi_pos]
    exact_mod_cast h3
  · intro h
    have h3 : (W : ℝ) < 2 * (u : ℝ) := by exact_mod_cast h
    nlinarith [Real.pi_pos]

theorem hemi_alpha_gt_half (W u : Nat) (huW : u < W) :
    Real.pi / 2 < ((W : ℝ) - (u : ℝ)) / ((W : ℝ) / Real.pi) ↔ 2 * u < W := by
  have h2 : (0 : ℝ) < (W : ℝ) := by exact_mod_cast (Nat.zero_lt_of_lt huW)
  rw [hemi_alpha_eq W u (Nat.zero_lt_of_lt huW), lt_div_iff₀ h2]
  constructor
  · intro h
    have h3 : 2 * (u : ℝ) < (W : ℝ) := by nlinarith [Real.pi_pos]
    exact_mod_cast h3
  · intro h
    have h3 : 2 * (u : ℝ) < (W : ℝ) := by exact_mod_cast h
    nlinarith [Real.pi_pos]

/-- The cosine of the angle vanishes exactly in the middle column. -/
theorem hemi_cos_eq_zero_iff (W u : Nat) (hu : 0 < u) (huW : u < W) :
    Real.cos (((W : ℝ) - (u : ℝ)) / ((W : ℝ) / Real.pi)) = 0 ↔ 2 * u = W := by
  constructor
  · intro h
    rcases Nat.lt_trichotomy (2 * u) W with h1 | h1 | h1
    · exfalso
      have h2 := (hemi_alpha_gt_half W u huW).mpr h1
      have h3 := Real.cos_neg_of_pi_div_two_lt_of_lt h2
        (by linarith [hemi_alpha_lt_pi W u hu huW, Real.pi_pos])
      linarith
    · exact h1
    · exfalso
      have h2 := (hemi_alpha_lt_half W u huW).mpr h1
      have h3 := Real.cos_pos_of_mem_Ioo
        ⟨by linarith [hemi_alpha_pos W u huW, Real.pi_pos], h2⟩
      linarith
  · intro h
    have h2 : (0 : ℝ) < (W : ℝ) := by exact_mod_cast (Nat.zero_lt_of_lt huW)
    have h3 : (W : ℝ) = 2 * (u : ℝ) := by exact_mod_cast h.symm
    have h4 : ((W : ℝ) - (u : ℝ)) / ((W : ℝ) / Real.pi) = Real.pi / 2 := by
      rw [hemi_alpha_eq W u (Nat.zero_lt_of_lt huW), h3]
      have : (u : ℝ) ≠ 0 := by
        have : (0 : ℝ) < (u : ℝ) := by exact_mod_cast hu
        exact ne_of_gt this
      field_simp
      ring
    rw [h4, Real.cos_pi_div_two]

/-- The radius `rp` vanishes exactly at the middle column of the centre row. -/
theorem hemi_rp_eq_zero_iff (W H u v : Nat) (hu : 0 < u) (huW : u < W) :
    Real.sqrt ((W : ℝ) / Real.pi * Real.cos (((W : ℝ) - (u : ℝ)) / ((W : ℝ) / Real.pi))
        * ((W : ℝ) / Real.pi * Real.cos (((W : ℝ) - (u : ℝ)) / ((W : ℝ) / Real.pi)))
        + ((((v : Int) - ((H / 2 : Nat) : Int) : Int)) : ℝ)
          * ((((v : Int) - ((H / 2 : Nat) : Int) : Int)) : ℝ)) = 0
      ↔ 2 * u = W ∧ v = H / 2 := by
  have hW : (0 : ℝ) < (W : ℝ) := by exact_mod_cast (Nat.zero_lt_of_lt huW)
  have hr : (W : ℝ) / Real.pi ≠ 0 := ne_of_gt (div_pos hW Real.pi_pos)
  rw [Real.sqrt_eq_zero (add_nonneg (mul_self_nonneg _) (mul_self_nonneg _)),
    mul_self_add_mul_self_eq_zero, mul_eq_zero, hemi_cos_eq_zero_iff W u hu huW]
  constructor
  · rintro ⟨h1 | h1, h2⟩
    · exact absurd h1 hr
    · refine ⟨h1, ?_⟩
      have h3 : (v : Int) - ((H / 2 : Nat) : Int) = 0 := by exact_mod_cast h2
      omega
  · rintro ⟨h1, h2⟩
    refine ⟨Or.inr h1, ?_⟩
    rw [h2]
    simp

/-- Away from the column `u = 0` and from the centre pixel every division of
the Equidistant pixel has a non-zero denominator, and the pixel record holds
the values of the formulas. -/
theorem hemicylinderPixel_equidistant_some (M : MathFns ℝ) (hM : RealMath M)
    (W H u v : Nat) (hu : 0 < u) (huW : u < W) (hc : ¬ (2 * u = W ∧ v = H / 2)) :
    ∃ p, hemicylinderPixel M .EQUIDISTANT W H u v = some p ∧
      p.alpha = ((W : ℝ) - (u : ℝ)) / ((W : ℝ) / Real.pi) ∧
      p.xp = (W : ℝ) / Real.pi * Real.cos p.alpha ∧
      p.yp = ((((v : Int) - ((H / 2 : Nat) : Int) : Int)) : ℝ) ∧
      p.zp = (W : ℝ) / Real.pi * |Real.sin p.alpha| ∧
      p.rp = Real.sqrt (p.xp * p.xp + p.yp * p.yp) ∧
      p.zp ≠ 0 ∧ p.rp ≠ 0 ∧
      p.theta = Real.arctan (p.rp / p.zp) ∧
      p.x1 = (W : ℝ) / Real.pi * p.theta * p.xp / p.rp ∧
      p.y1 = (W : ℝ) / Real.pi * p.theta * p.yp / p.rp ∧
      p.mapX = p.x1 + ((W / 2 : Nat) : ℝ) ∧
      p.mapY = p.y1 + ((H / 2 : Nat) : ℝ) := by
  obtain ⟨hpi, hsqrt, hsin, hcos, hasin, hatan, hfabs, hpow⟩ := hM
  have hW : (0 : ℝ) < (W : ℝ) := by exact_mod_cast (Nat.zero_lt_of_lt huW)
  have hr : (W : ℝ) / Real.pi ≠ 0 := ne_of_gt (div_pos hW Real.pi_pos)
  have hzp : (W : ℝ) / Real.pi * |Real.sin (((W : ℝ) - (u : ℝ)) / ((W : ℝ) / Real.pi))| ≠ 0 :=
    mul_ne_zero hr (abs_ne_zero.mpr (ne_of_gt (hemi_sin_pos W u hu huW)))
  have hrp := (not_congr (hemi_rp_eq_zero_iff W H u v hu huW)).mpr hc
  simp only [hemicylinderPixel, bind, Option.bind_eq_bind, pure, hpi, hsin, hcos, hsqrt, hatan,
    hfabs, fdiv_of_ne _ _ Real.pi_ne_zero, Option.some_bind, fdiv_of_ne _ _ hr,
    fdiv_of_ne _ _ hzp, lensModel, fdiv_of_ne _ _ hrp]
  exact ⟨_, rfl, rfl, rfl, rfl, rfl, rfl, hzp, hrp, rfl, rfl, rfl, rfl, rfl⟩

/-- The incidence angle on the centre row: `atan (|cos a| / sin a) = |pi/2 - a|`
for `0 < a < pi`. -/
theorem arctan_abs_cos_div_sin (a : ℝ) (h0 : 0 < a) (h1 : a < Real.pi) :
    Real.arctan (|Real.cos a| / Real.sin a) = |Real.pi / 2 - a| := by
  have htan : Real.tan (Real.pi / 2 - a) = Real.cos a / Real.sin a := by
    rw [Real.tan_pi_div_two_sub, Real.tan_eq_sin_div_cos, inv_div]
  rcases le_total a (Real.pi / 2) with h | h
  · have hc : 0 ≤ Real.cos a :=
      Real.cos_nonneg_of_mem_Icc ⟨by linarith [Real.pi_pos], h⟩
    rw [abs_of_nonneg hc, abs_of_nonneg (by linarith), ← htan]
    exact Real.arctan_tan (by linarith [Real.pi_pos]) (by linarith)
  · have hc : Real.cos a ≤ 0 :=
      Real.cos_nonpos_of_pi_div_two_le_of_le h (by linarith [Real.pi_pos])
    have htan' : Real.tan (a - Real.pi / 2) = -Real.cos a / Real.sin a := by
      rw [← neg_sub, Real.tan_neg, htan, neg_div]
    rw [abs_of_nonpos hc, abs_of_nonpos (by linarith), ← htan', neg_sub]
    exact Real.arctan_tan (by linarith [Real.pi_pos]) (by linarith)

/-- The sine of a non-zero rational number is not zero (pi is irrational). -/
theorem sin_ratCast_ne_zero (q : ℚ) (hq : q ≠ 0) : Real.sin (q : ℝ) ≠ 0 := by
  intro h
  obtain ⟨n, hn⟩ := Real.sin_eq_zero_iff.mp h
  have hn0 : n ≠ 0 := by
    rintro rfl
    apply hq
    have h0 : (q : ℝ) = 0 := by
      rw [← hn]
      simp
    exact_mod_cast h0
  have hn0' : (n : ℝ) ≠ 0 := by exact_mod_cast hn0
  apply irrational_pi.ne_rat (q / (n : ℚ))
  push_cast
  rw [eq_div_iff hn0']
  linarith

/-- The cosine of a rational number is not zero (pi is irrational). -/
theorem cos_ratCast_ne_zero (q : ℚ) : Real.cos (q : ℝ) ≠ 0 := by
  intro h
  obtain ⟨n, hn⟩ := Real.cos_eq_zero_iff.mp h
  have hn0 : (2 * n + 1 : Int) ≠ 0 := by omega
  have hn0' : (2 * (n : ℝ) + 1) ≠ 0 := by exact_mod_cast hn0
  apply irrational_pi.ne_rat (2 * q / (2 * (n : ℚ) + 1))
  push_cast
  rw [eq_div_iff hn0']
  linarith

/-- The constant `CV_PI` is positive. -/
theorem CV_PI_pos : (0 : ℝ) < ((CV_PI : ℚ) : ℝ) := by
  have h : (0 : ℚ) < CV_PI := by
    unfold CV_PI
    norm_num
  exact_mod_cast h

/-- With the `double` constant `CV_PI` the angle `alpha = (nWidth - u) / r`,
`r = nWidth / CV_PI`, of a column `u < nWidth` is a non-zero rational number. -/
theorem hemi_cv_alpha (W u : Nat) (huW : u < W) :
    ∃ q : ℚ, q ≠ 0 ∧ ((W : ℝ) - (u : ℝ)) / ((W : ℝ) / ((CV_PI : ℚ) : ℝ)) = (q : ℝ) := by
  refine ⟨((W : ℚ) - (u : ℚ)) / ((W : ℚ) / CV_PI), ?_, ?_⟩
  · have h1 : (u : ℚ) < (W : ℚ) := by exact_mod_cast huW
    have h2 : (0 : ℚ) < (W : ℚ) := by exact_mod_cast (Nat.zero_lt_of_lt huW)
    have h3 : (0 : ℚ) < CV_PI := by
      unfold CV_PI
      norm_num
    exact div_ne_zero (ne_of_gt (by linarith)) (div_ne_zero (ne_of_gt h2) (ne_of_gt h3))
  · push_cast
    rfl

/-- With the `double` constant `CV_PI`, every pixel of a column `u < nWidth`
is computed without a zero denominator, whatever the lens model: `CV_PI`, `r`,
`zp` and `rp` are non-zero, and the stored values are `x1 + Cx` and `y1 + Cy`,
where `NODISTORTION` has `x1 = u` and `y1 = v - Cy`. -/
theorem hemicylinderPixel_cv (M : MathFns ℝ) (hM : CvMath M) (e : EDistortionModel)
    (W H u v : Nat) (huW : u < W) :
    ∃ p, hemicylinderPixel M e W H u v = some p ∧
      M.pi ≠ 0 ∧ (W : ℝ) / M.pi ≠ 0 ∧ p.zp ≠ 0 ∧ p.rp ≠ 0 ∧
      (e = .NODISTORTION →
        p.x1 = (u : ℝ) ∧ p.y1 = ((((v : Int) - ((H / 2 : Nat) : Int) : Int)) : ℝ)) ∧
      p.mapX = p.x1 + ((W / 2 : Nat) : ℝ) ∧ p.mapY = p.y1 + ((H / 2 : Nat) : ℝ) := by
  obtain ⟨hpi, hsqrt, hsin, hcos, hasin, hatan, hfabs, hpow⟩ := hM
  have hpi0 : ((CV_PI : ℚ) : ℝ) ≠ 0 := ne_of_gt CV_PI_pos
  have hW : (0 : ℝ) < (W : ℝ) := by exact_mod_cast (Nat.zero_lt_of_lt huW)
  have hr : (W : ℝ) / ((CV_PI : ℚ) : ℝ) ≠ 0 := ne_of_gt (div_pos hW CV_PI_pos)
  obtain ⟨q, hq0, hq⟩ := hemi_cv_alpha W u huW
  have hs : Real.sin (((W : ℝ) - (u : ℝ)) / ((W : ℝ) / ((CV_PI : ℚ) : ℝ))) ≠ 0 := by
    rw [hq]
    exact sin_ratCast_ne_zero q hq0
  have hc : Real.cos (((W : ℝ) - (u : ℝ)) / ((W : ℝ) / ((CV_PI : ℚ) : ℝ))) ≠ 0 := by
    rw [hq]
    exact cos_ratCast_ne_zero q
  have hzp : (W : ℝ) / ((CV_PI : ℚ) : ℝ)
      * |Real.sin (((W : ℝ) - (u : ℝ)) / ((W : ℝ) / ((CV_PI : ℚ) : ℝ)))| ≠ 0 :=
    mul_ne_zero hr (abs_ne_zero.mpr hs)
  have hxp : (W : ℝ) / ((CV_PI : ℚ) : ℝ)
      * Real.cos (((W : ℝ) - (u : ℝ)) / ((W : ℝ) / ((CV_PI : ℚ) : ℝ))) ≠ 0 :=
    mul_ne_zero hr hc
  have hrp : Real.sqrt ((W : ℝ) / ((CV_PI : ℚ) : ℝ)
        * Real.cos (((W : ℝ) - (u : ℝ)) / ((W : ℝ) / ((CV_PI : ℚ) : ℝ)))
        * ((W : ℝ) / ((CV_PI : ℚ) : ℝ)
          * Real.cos (((W : ℝ) - (u : ℝ)) / ((W : ℝ) / ((CV_PI : ℚ) : ℝ))))
        + ((((v : Int) - ((H / 2 : Nat) : Int) : Int)) : ℝ)
          * ((((v : Int) - ((H / 2 : Nat) : Int) : Int)) : ℝ)) ≠ 0 := by
    apply ne_of_gt
    apply Real.sqrt_pos.mpr
    have h1 := mul_self_pos.mpr hxp
    have h2 := mul_self_nonneg (((((v : Int) - ((H / 2 : Nat) : Int) : Int)) : ℝ))
    linarith
  rw [hpi]
  cases e with
  | NODISTORTION =>
    simp only [hemicylinderPixel, bind, Option.bind_eq_bind, pure, hpi, hsin, hcos, hsqrt,
      hatan, hfabs, fdiv_of_ne _ _ hpi0, Option.some_bind, fdiv_of_ne _ _ hr,
      fdiv_of_ne _ _ hzp, lensModel]
    exact ⟨_, rfl, hpi0, hr, hzp, hrp, fun _ => ⟨rfl, rfl⟩, rfl, rfl⟩
  | EQUIDISTANT =>
    simp only [hemicylinderPixel, bind, Option.bind_eq_bind, pure, hpi, hsin, hcos, hsqrt,
      hatan, hfabs, fdiv_of_ne _ _ hpi0, Option.some_bind, fdiv_of_ne _ _ hr,
      fdiv_of_ne _ _ hzp, lensModel, fdiv_of_ne _ _ hrp]
    exact ⟨_, rfl, hpi0, hr, hzp, hrp, (fun h => by cases h), rfl, rfl⟩
  | EQUISOLID =>
    simp only [hemicylinderPixel, bind, Option.bind_eq_bind, pure, hpi, hsin, hcos, hsqrt,
      hatan, hfabs, fdiv_of_ne _ _ hpi0, Option.some_bind, fdiv_of_ne _ _ hr,
      fdiv_of_ne _ _ hzp, lensModel, fdiv_of_ne _ _ hrp]
    exact ⟨_, rfl, hpi0, hr, hzp, hrp, (fun h => by cases h), rfl, rfl⟩

/-! ## C7 -/

/-- C7: for an even width, on the row `v = Cy = height / 2`, for `0 < u < width`
and `u != width / 2`, the Equidistant Hemicylinder formulas in exact real
arithmetic divide by no zero and give `theta = |pi/2 - alpha|`,
`x1 = u - width/2`, `y1 = 0`, hence `mapX = u` and `mapY = v`. -/
theorem hemicylinder_centre_row_identity (M : MathFns ℝ) (hM : RealMath M)
    (W H u v : Nat) (hW : W % 2 = 0) (hu : 0 < u) (huW : u < W) (hne : u ≠ W / 2)
    (hv : v = H / 2) :
    ∃ p, hemicylinderPixel M .EQUIDISTANT W H u v = some p ∧
      p.theta = |Real.pi / 2 - p.alpha| ∧
      p.x1 = (u : ℝ) - (W : ℝ) / 2 ∧ p.y1 = 0 ∧
      p.mapX = (u : ℝ) ∧ p.mapY = (v : ℝ) := by
  have h2 : 2 * u ≠ W := by omega
  obtain ⟨p, hp, hα, hxp, hyp, hzp, hrp, hzp0, hrp0, hθ, hx1, hy1, hmx, hmy⟩ :=
    hemicylinderPixel_equidistant_some M hM W H u v hu huW (fun h => h2 h.1)
  have hWpos : (0 : ℝ) < (W : ℝ) := by exact_mod_cast (Nat.zero_lt_of_lt huW)
  have hr : 0 < (W : ℝ) / Real.pi := div_pos hWpos Real.pi_pos
  have hα0 : 0 < p.alpha := by rw [hα]; exact hemi_alpha_pos W u huW
  have hα1 : p.alpha < Real.pi := by rw [hα]; exact hemi_alpha_lt_pi W u hu huW
  have hsin : 0 < Real.sin p.alpha := Real.sin_pos_of_pos_of_lt_pi hα0 hα1
  have hcos : Real.cos p.alpha ≠ 0 := by
    rw [hα]
    exact fun h => h2 ((hemi_cos_eq_zero_iff W u hu huW).mp h)
  have hyp0 : p.yp = 0 := by
    rw [hyp, hv]
    simp
  have hrp' : p.rp = (W : ℝ) / Real.pi * |Real.cos p.alpha| := by
    rw [hrp, hyp0, mul_zero, add_zero, Real.sqrt_mul_self_eq_abs, hxp, abs_mul,
      abs_of_pos hr]
  have hzp' : p.zp = (W : ℝ) / Real.pi * Real.sin p.alpha := by
    rw [hzp, abs_of_pos hsin]
  have hθ' : p.theta = |Real.pi / 2 - p.alpha| := by
    rw [hθ, hrp', hzp', mul_div_mul_left _ _ (ne_of_gt hr)]
    exact arctan_abs_cos_div_sin p.alpha hα0 hα1
  have hrα : (W : ℝ) / Real.pi * p.alpha = (W : ℝ) - (u : ℝ) := by
    rw [hα]
    field_simp
    ring
  have hx1' : p.x1 = (u : ℝ) - (W : ℝ) / 2 := by
    rw [hx1, hrp', hxp, hθ']
    rcases lt_or_gt_of_ne hcos with hc | hc
    · have hα2 : Real.pi / 2 < p.alpha := by
        by_contra hcon
        have := Real.cos_nonneg_of_mem_Icc
          (⟨by linarith [Real.pi_pos], not_lt.mp hcon⟩ :
            p.alpha ∈ Set.Icc (-(Real.pi / 2)) (Real.pi / 2))
        linarith
      rw [abs_of_neg hc, abs_of_neg (by linarith)]
      have hd : (W : ℝ) / Real.pi * -Real.cos p.alpha ≠ 0 :=
        mul_ne_zero (ne_of_gt hr) (neg_ne_zero.mpr hcos)
      rw [div_eq_iff hd]
      have hpi : (W : ℝ) / Real.pi * Real.pi = (W : ℝ) := by
        field_simp
      linear_combination ((W : ℝ) / Real.pi * Real.cos p.alpha) * hrα
        - ((W : ℝ) / Real.pi * Real.cos p.alpha / 2) * hpi
    · have hα2 : p.alpha < Real.pi / 2 := by
        by_contra hcon
        have := Real.cos_nonpos_of_pi_div_two_le_of_le (not_lt.mp hcon)
          (by linarith [Real.pi_pos])
        linarith
      rw [abs_of_pos hc, abs_of_pos (by linarith)]
      have hd : (W : ℝ) / Real.pi * Real.cos p.alpha ≠ 0 :=
        mul_ne_zero (ne_of_gt hr) hcos
      rw [div_eq_iff hd]
      have hpi : (W : ℝ) / Real.pi * Real.pi = (W : ℝ) := by
        field_simp
      linear_combination (-((W : ℝ) / Real.pi * Real.cos p.alpha)) * hrα
        + ((W : ℝ) / Real.pi * Real.cos p.alpha / 2) * hpi
  have hy1' : p.y1 = 0 := by
    rw [hy1, hyp0]
    simp
  have hWhalf : ((W / 2 : Nat) : ℝ) = (W : ℝ) / 2 := by
    have h : 2 * (W / 2) = W := by omega
    have h' : (2 : ℝ) * ((W / 2 : Nat) : ℝ) = (W : ℝ) := by exact_mod_cast h
    linarith
  refine ⟨p, hp, hθ', hx1', hy1', ?_, ?_⟩
  · rw [hmx, hx1', hWhalf]
    ring
  · rw [hmy, hy1', hv]
    ring

/-- C7, witness: width 200, height 100, the pixel `u = 150` of the row `v = 50`. -/
theorem hemicylinder_centre_row_identity_witness :
    ∃ p, hemicylinderPixel (K := ℝ) ⟨Real.pi, Real.sqrt, Real.sin, Real.cos, Real.arcsin,
        Real.arctan, fun x => |x|, fun x y => x ^ y⟩ .EQUIDISTANT 200 100 150 50 = some p ∧
      p.theta = |Real.pi / 2 - p.alpha| ∧
      p.x1 = ((150 : Nat) : ℝ) - ((200 : Nat) : ℝ) / 2 ∧ p.y1 = 0 ∧
      p.mapX = ((150 : Nat) : ℝ) ∧ p.mapY = ((50 : Nat) : ℝ) :=
  hemicylinder_centre_row_identity _ ⟨rfl, rfl, rfl, rfl, rfl, rfl, rfl, rfl⟩ 200 100 150 50
    (by decide) (by decide) (by decide) (by decide) (by decide)

/-! ## C6 -/

/-- C6 (counterexample): with the model `NODISTORTION`, on a 4x4 image the
pixel `u = 1`, `v = 1` is stored with `mapX = 3 = u + Cx`, not `u = 1` (and
`mapY = 1 = v`): the offset `x1 = xt = u` is not centred before `Cx` is
added. -/
theorem nodistortion_shifts_mapX :
    ∃ p, hemicylinderPixel (K := ℝ) ⟨((CV_PI : ℚ) : ℝ), Real.sqrt, Real.sin, Real.cos,
        Real.arcsin, Real.arctan, fun x => |x|, fun x y => x ^ y⟩ .NODISTORTION 4 4 1 1
        = some p ∧
      p.x1 = 1 ∧ p.mapX = 3 ∧ p.mapY = 1 ∧ p.mapX ≠ ((1 : Nat) : ℝ) := by
  obtain ⟨p, hp, _, _, _, _, hxy, hmx, hmy⟩ := hemicylinderPixel_cv
    ⟨((CV_PI : ℚ) : ℝ), Real.sqrt, Real.sin, Real.cos, Real.arcsin, Real.arctan,
      fun x => |x|, fun x y => x ^ y⟩ ⟨rfl, rfl, rfl, rfl, rfl, rfl, rfl, rfl⟩
    .NODISTORTION 4 4 1 1 (by decide)
  obtain ⟨hx1, hy1⟩ := hxy rfl
  have h3 : p.mapX = 3 := by
    rw [hmx, hx1]
    norm_num
  refine ⟨p, hp, ?_, h3, ?_, ?_⟩
  · rw [hx1]
    norm_num
  · rw [hmy, hy1]
    norm_num
  · rw [h3]
    norm_num

/-- C6 (amended): with the model `NODISTORTION`, for every image size and every
pixel of a column `u < width`, the Hemicylinder loop body evaluates no division
by zero and stores `mapX = u + Cx` with `Cx = width / 2` (integer division) and
`mapY = v`; the offsets are `x1 = u` and `y1 = v - Cy` (exact real arithmetic,
`CV_PI` the `double` constant). -/
theorem nodistortion_stores_shifted (M : MathFns ℝ) (hM : CvMath M)
    (W H u v : Nat) (huW : u < W) :
    ∃ p, hemicylinderPixel M .NODISTORTION W H u v = some p ∧
      p.x1 = (u : ℝ) ∧ p.y1 = ((((v : Int) - ((H / 2 : Nat) : Int) : Int)) : ℝ) ∧
      p.mapX = (u : ℝ) + ((W / 2 : Nat) : ℝ) ∧ p.mapY = (v : ℝ) := by
  obtain ⟨p, hp, _, _, _, _, hxy, hmx, hmy⟩ := hemicylinderPixel_cv M hM .NODISTORTION
    W H u v huW
  obtain ⟨hx1, hy1⟩ := hxy rfl
  refine ⟨p, hp, hx1, hy1, ?_, ?_⟩
  · rw [hmx, hx1]
  · rw [hmy, hy1]
    simp only [Int.cast_sub, Int.cast_natCast]
    ring

/-- C6 (amended), witness: width 200, height 100, the pixel `u = 0`, `v = 10`. -/
theorem nodistortion_stores_shifted_witness :
    ∃ p, hemicylinderPixel (K := ℝ) ⟨((CV_PI : ℚ) : ℝ), Real.sqrt, Real.sin, Real.cos,
        Real.arcsin, Real.arctan, fun x => |x|, fun x y => x ^ y⟩ .NODISTORTION 200 100 0 10
        = some p ∧
      p.x1 = ((0 : Nat) : ℝ) ∧
      p.y1 = (((((10 : Nat) : Int) - ((100 / 2 : Nat) : Int) : Int)) : ℝ) ∧
      p.mapX = ((0 : Nat) : ℝ) + ((200 / 2 : Nat) : ℝ) ∧ p.mapY = ((10 : Nat) : ℝ) :=
  nodistortion_stores_shifted _ ⟨rfl, rfl, rfl, rfl, rfl, rfl, rfl, rfl⟩ 200 100 0 10
    (by decide)

/-! ## C8 -/

/-- The scan loop over a list of rows, started from `(a, b)`: the first
component is the least of `a` and the visited values, the second the greatest
of `b` and the visited values. -/
theorem scan_foldl_spec {K : Type} [LinearOrderedField K] (col : Nat → K) (l : List Nat) :
    ∀ (a b : K),
      ((l.foldl (fun (acc : K × K) v =>
          (if col v < acc.1 then col v else acc.1, if col v > acc.2 then col v else acc.2))
          (a, b)).1 ≤ a ∧
        (∀ v ∈ l, (l.foldl (fun (acc : K × K) v =>
          (if col v < acc.1 then col v else acc.1, if col v > acc.2 then col v else acc.2))
          (a, b)).1 ≤ col v) ∧
        ((l.foldl (fun (acc : K × K) v =>
          (if col v < acc.1 then col v else acc.1, if col v > acc.2 then col v else acc.2))
          (a, b)).1 = a ∨
          ∃ v ∈ l, (l.foldl (fun (acc : K × K) v =>
            (if col v < acc.1 then col v else acc.1, if col v > acc.2 then col v else acc.2))
            (a, b)).1 = col v)) ∧
      (b ≤ (l.foldl (fun (acc : K × K) v =>
          (if col v < acc.1 then col v else acc.1, if col v > acc.2 then col v else acc.2))
          (a, b)).2 ∧
        (∀ v ∈ l, col v ≤ (l.foldl (fun (acc : K × K) v =>
          (if col v < acc.1 then col v else acc.1, if col v > acc.2 then col v else acc.2))
          (a, b)).2) ∧
        ((l.foldl (fun (acc : K × K) v =>
          (if col v < acc.1 then col v else acc.1, if col v > acc.2 then col v else acc.2))
          (a, b)).2 = b ∨
          ∃ v ∈ l, (l.foldl (fun (acc : K × K) v =>
            (if col v < acc.1 then col v else acc.1, if col v > acc.2 then col v else acc.2))
            (a, b)).2 = col v)) := by
  induction l with
  | nil =>
    intro a b
    simp
  | cons w l ih =>
    intro a b
    simp only [List.foldl_cons]
    obtain ⟨⟨h1, h2, h3⟩, ⟨k1, k2, k3⟩⟩ :=
      ih (if col w < a then col w else a) (if col w > b then col w else b)
    have ha1 : (if col w < a then col w else a) ≤ a := by
      split_ifs with h
      · exact le_of_lt h
      · exact le_refl a
    have ha2 : (if col w < a then col w else a) ≤ col w := by
      split_ifs with h
      · exact le_refl _
      · exact not_lt.mp h
    have hb1 : b ≤ (if col w > b then col w else b) := by
      split_ifs with h
      · exact le_of_lt h
      · exact le_refl b
    have hb2 : col w ≤ (if col w > b then col w else b) := by
      split_ifs with h
      · exact le_refl _
      · exact not_lt.mp h
    refine ⟨⟨le_trans h1 ha1, ?_, ?_⟩, ⟨le_trans hb1 k1, ?_, ?_⟩⟩
    · intro v hv
      rcases List.mem_cons.mp hv with rfl | hv
      · exact le_trans h1 ha2
      · exact h2 v hv
    · rcases h3 with h3 | ⟨v, hv, h3⟩
      · by_cases h : col w < a
        · right
          exact ⟨w, List.mem_cons_self w l, by rw [h3, if_pos h]⟩
        · left
          rw [h3, if_neg h]
      · right
        exact ⟨v, List.mem_cons_of_mem w hv, h3⟩
    · intro v hv
      rcases List.mem_cons.mp hv with rfl | hv
      · exact le_trans hb2 k1
      · exact k2 v hv
    · rcases k3 with k3 | ⟨v, hv, k3⟩
      · by_cases h : col w > b
        · right
          exact ⟨w, List.mem_cons_self w l, by rw [k3, if_pos h]⟩
        · left
          rw [k3, if_neg h]
      · right
        exact ⟨v, List.mem_cons_of_mem w hv, k3⟩

/-- What phase 1 computes: `min_y1` is the least of `nHeight` and the column's
values, `max_y1` the greatest of `0` and the column's values. -/
theorem scanColumn_spec {K : Type} [LinearOrderedField K] (nHeight : Nat) (col : Nat → K) :
    ((scanColumn nHeight col).1 ≤ (nHeight : K) ∧
      (∀ v, v < nHeight → (scanColumn nHeight col).1 ≤ col v) ∧
      ((scanColumn nHeight col).1 = (nHeight : K) ∨
        ∃ v, v < nHeight ∧ (scanColumn nHeight col).1 = col v)) ∧
    ((0 : K) ≤ (scanColumn nHeight col).2 ∧
      (∀ v, v < nHeight → col v ≤ (scanColumn nHeight col).2) ∧
      ((scanColumn nHeight col).2 = 0 ∨
        ∃ v, v < nHeight ∧ (scanColumn nHeight col).2 = col v)) := by
  obtain ⟨⟨h1, h2, h3⟩, ⟨k1, k2, k3⟩⟩ :=
    scan_foldl_spec col (List.range nHeight) (nHeight : K) 0
  refine ⟨⟨h1, fun v hv => h2 v (List.mem_range.mpr hv), ?_⟩,
    ⟨k1, fun v hv => k2 v (List.mem_range.mpr hv), ?_⟩⟩
  · rcases h3 with h3 | ⟨v, hv, h3⟩
    · exact Or.inl h3
    · exact Or.inr ⟨v, List.mem_range.mp hv, h3⟩
  · rcases k3 with k3 | ⟨v, hv, k3⟩
    · exact Or.inl k3
    · exact Or.inr ⟨v, List.mem_range.mp hv, k3⟩

/-- The value `asin (sqrt 2 / 2) = pi / 4`. -/
theorem arcsin_sqrt_two_div_two : Real.arcsin (Real.sqrt 2 / 2) = Real.pi / 4 := by
  rw [← Real.sin_pi_div_four]
  exact Real.arcsin_sin (by linarith [Real.pi_pos]) (by linarith [Real.pi_pos])

/-- C12 (code evaluated at the failing input): for the fitted circle `Cx = 0`,
`Cy = 3`, `R = 1` on an image of width 2 and height 1, the column `u = 1` of
the Midpoint-Circle map holds the single value `mapY = 4`; the scan starts
`min_y1` at `nHeight = 1` and only lowers it, so it ends with `min_y1 = 1`, not
the column minimum 4 (range 3 instead of 0); likewise a column holding `-3`
ends with `max_y1 = 0`, the start value, not the column maximum `-3`. -/
theorem scan_misses_column_extremes :
    midpointCirclePixel (K := ℝ) ⟨Real.pi, Real.sqrt, Real.sin, Real.cos, Real.arcsin,
      Real.arctan, fun x => |x|, fun x y => x ^ y⟩ 0 3 1 1 0 = some (0, 4) ∧
    scanColumn 1 (fun _ => (4 : ℝ)) = (1, 4) ∧ (1 : ℝ) ≠ 4 ∧
    scanColumn 1 (fun _ => (-3 : ℝ)) = (-3, 0) ∧ (0 : ℝ) ≠ -3 := by
  refine ⟨?_, ?_, by norm_num, ?_, by norm_num⟩
  · have hx : (((((1 : Nat) : Int) - 0 : Int)) : ℝ) ≠ 0 := by norm_num
    have hPE : (((1 : Int)) : ℝ) - (((((0 : Nat) : Int) - 3 : Int)) : ℝ) ≠ 0 := by norm_num
    have ha : (((((0 : Nat) : Int) - 3 : Int)) : ℝ)
        / ((((1 : Int)) : ℝ) - (((((0 : Nat) : Int) - 3 : Int)) : ℝ)) + 1 ≠ 0 := by norm_num
    simp only [midpointCirclePixel, midpointOffset, if_pos hx, bind, Option.bind_eq_bind, pure]
    rw [midpointGeneral_some_real _ ⟨rfl, rfl, rfl, rfl, rfl, rfl, rfl, rfl⟩ 1 (by decide) _ _
      hx hPE ha]
    simp only [Option.some_bind]
    have e1 : (((((1 : Nat) : Int) - 0 : Int)) : ℝ) = 1 := by norm_num
    have e2 : (((((0 : Nat) : Int) - 3 : Int)) : ℝ) = -3 := by norm_num
    have e3 : (((1 : Int) * 1 : Int) : ℝ) = 1 := by norm_num
    have e4 : (((1 : Int)) : ℝ) = 1 := by norm_num
    have e5 : (((0 : Int)) : ℝ) = 0 := by norm_num
    have e6 : (((3 : Int)) : ℝ) = 3 := by norm_num
    rw [e1, e2, e3, e4, e5, e6]
    have hq : Real.sqrt ((1 : ℝ) * 1 + 1) / (2 * (((1 : ℝ) * 1 + 1) / (2 * 1)))
        = Real.sqrt 2 / 2 := by norm_num
    rw [hq, arcsin_sqrt_two_div_two]
    have hα : (-3 : ℝ) / (1 - -3) * (2 * (Real.pi / 4)) / (-3 / (1 - -3) + 1)
        = Real.pi / 2 - 2 * Real.pi := by
      norm_num
      ring
    rw [hα, Real.cos_sub_two_pi, Real.sin_sub_two_pi, Real.cos_pi_div_two,
      Real.sin_pi_div_two]
    norm_num
  · simp [scanColumn, List.range_succ]
  · norm_num [scanColumn, List.range_succ]

/-! ## C15 -/

/-- Bounds of a product from bounds of its factors. -/
theorem mul_bounds (a b A B : Int) (ha : -A ≤ a ∧ a ≤ A) (hb : -B ≤ b ∧ b ≤ B) :
    -(A * B) ≤ a * b ∧ a * b ≤ A * B := by
  have h1 : |a| ≤ A := abs_le.mpr ha
  have h2 : |b| ≤ B := abs_le.mpr hb
  have h3 : |a * b| ≤ A * B := by
    rw [abs_mul]
    exact mul_le_mul h1 h2 (abs_nonneg b) (le_trans (abs_nonneg a) h1)
  exact abs_le.mp h3

/-- One iteration with small offsets: the 32 bit reading agrees with the exact
one, for the products and for the accumulators, and the bounds are kept. -/
theorem accumulate32_step (mean : Point) (m : Moments) (p : Point) (k : Int)
    (hk : k + 1 ≤ 12) (hm : MomentsWithin m k)
    (hx : -447 ≤ p.x - mean.x ∧ p.x - mean.x ≤ 447)
    (hy : -447 ≤ p.y - mean.y ∧ p.y - mean.y ≤ 447) :
    (toInt32 (p.x - mean.x) = p.x - mean.x ∧ toInt32 (p.y - mean.y) = p.y - mean.y ∧
      products32 (p.x - mean.x) (p.y - mean.y) = products (p.x - mean.x) (p.y - mean.y)) ∧
    accumulate32 mean m p = accumulate mean m p ∧
    MomentsWithin (accumulate mean m p) (k + 1) := by
  obtain ⟨⟨a1, a2⟩, ⟨a3, a4⟩, ⟨a5, a6⟩, ⟨a7, a8⟩, ⟨a9, a10⟩, ⟨a11, a12⟩, ⟨a13, a14⟩,
    ⟨a15, a16⟩, ⟨a17, a18⟩⟩ := hm
  simp only [accumulate32, accumulate, products32, products, MomentsWithin]
  generalize p.x - mean.x = xi at hx ⊢
  generalize p.y - mean.y = yi at hy ⊢
  have bxx := mul_bounds xi xi 447 447 hx hx
  have byy := mul_bounds yi yi 447 447 hy hy
  have bxy := mul_bounds xi yi 447 447 hx hy
  have bxxx := mul_bounds (xi * xi) xi (447 * 447) 447 bxx hx
  have byyy := mul_bounds (yi * yi) yi (447 * 447) 447 byy hy
  have bxyy := mul_bounds (xi * yi) yi (447 * 447) 447 bxy hy
  have bxxy := mul_bounds (xi * xi) yi (447 * 447) 447 bxx hy
  norm_num at bxx byy bxy bxxx byyy bxyy bxxy
  have t1 : toInt32 xi = xi := toInt32_of_range _ (by linarith) (by linarith)
  have t2 : toInt32 yi = yi := toInt32_of_range _ (by linarith) (by linarith)
  have t3 : toInt32 (xi * xi) = xi * xi := toInt32_of_range _ (by linarith) (by linarith)
  have t4 : toInt32 (yi * yi) = yi * yi := toInt32_of_range _ (by linarith) (by linarith)
  have t5 : toInt32 (xi * yi) = xi * yi := toInt32_of_range _ (by linarith) (by linarith)
  have t6 : toInt32 (xi * xi * xi) = xi * xi * xi :=
    toInt32_of_range _ (by linarith) (by linarith)
  have t7 : toInt32 (yi * yi * yi) = yi * yi * yi :=
    toInt32_of_range _ (by linarith) (by linarith)
  have t8 : toInt32 (xi * yi * yi) = xi * yi * yi :=
    toInt32_of_range _ (by linarith) (by linarith)
  have t9 : toInt32 (xi * xi * yi) = xi * xi * yi :=
    toInt32_of_range _ (by linarith) (by linarith)
  have s1 : toInt32 (m.sum_xi + xi) = m.sum_xi + xi :=
    toInt32_of_range _ (by linarith) (by linarith)
  have s2 : toInt32 (m.sum_yi + yi) = m.sum_yi + yi :=
    toInt32_of_range _ (by linarith) (by linarith)
  have s3 : toInt32 (m.sum_xi_2 + xi * xi) = m.sum_xi_2 + xi * xi :=
    toInt32_of_range _ (by linarith) (by linarith)
  have s4 : toInt32 (m.sum_yi_2 + yi * yi) = m.sum_yi_2 + yi * yi :=
    toInt32_of_range _ (by linarith) (by linarith)
  have s5 : toInt32 (m.sum_xi_3 + xi * xi * xi) = m.sum_xi_3 + xi * xi * xi :=
    toInt32_of_range _ (by linarith) (by linarith)
  have s6 : toInt32 (m.sum_yi_3 + yi * yi * yi) = m.sum_yi_3 + yi * yi * yi :=
    toInt32_of_range _ (by linarith) (by linarith)
  have s7 : toInt32 (m.sum_xi_yi + xi * yi) = m.sum_xi_yi + xi * yi :=
    toInt32_of_range _ (by linarith) (by linarith)
  have s8 : toInt32 (m.sum_xi_yi_2 + xi * yi * yi) = m.sum_xi_yi_2 + xi * yi * yi :=
    toInt32_of_range _ (by linarith) (by linarith)
  have s9 : toInt32 (m.sum_xi_2_yi + xi * xi * yi) = m.sum_xi_2_yi + xi * xi * yi :=
    toInt32_of_range _ (by linarith) (by linarith)
  simp only [t1, t2, t3, t4, t5, t6, t7, t8, t9, s1, s2, s3, s4, s5, s6, s7, s8, s9,
    and_self, true_and]
  refine ⟨⟨?_, ?_⟩, ⟨?_, ?_⟩, ⟨?_, ?_⟩, ⟨?_, ?_⟩, ⟨?_, ?_⟩, ⟨?_, ?_⟩, ⟨?_, ?_⟩, ⟨?_, ?_⟩,
    ⟨?_, ?_⟩⟩ <;> linarith

/-- The moment loop over at most twelve points with small offsets: the 32 bit
reading agrees with the exact one after every iteration. -/
theorem foldl_accumulate32 (mean : Point) (l : List Point)
    (hb : ∀ p ∈ l, (-447 ≤ p.x - mean.x ∧ p.x - mean.x ≤ 447)
      ∧ (-447 ≤ p.y - mean.y ∧ p.y - mean.y ≤ 447)) :
    ∀ (m : Moments) (k : Int), 0 ≤ k → k + l.length ≤ 12 → MomentsWithin m k →
      l.foldl (accumulate32 mean) m = l.foldl (accumulate mean) m ∧
      MomentsWithin (l.foldl (accumulate mean) m) (k + l.length) := by
  induction l with
  | nil =>
    intro m k _ _ hm
    simp only [List.foldl_nil, List.length_nil, Nat.cast_zero, add_zero, true_and]
    exact hm
  | cons p l ih =>
    intro m k hk0 hk hm
    have hp := hb p (List.mem_cons_self p l)
    simp only [List.length_cons, Nat.cast_add, Nat.cast_one] at hk
    obtain ⟨_, h1, h2⟩ := accumulate32_step mean m p k (by linarith [Int.natCast_nonneg l.length])
      hm hp.1 hp.2
    have ih' := ih (fun q hq => hb q (List.mem_cons_of_mem p hq)) (accumulate mean m p) (k + 1)
      (by linarith) (by linarith) h2
    simp only [List.foldl_cons, List.length_cons, Nat.cast_add, Nat.cast_one]
    rw [h1]
    have e : k + ((l.length : Int) + 1) = k + 1 + (l.length : Int) := by ring
    rw [e]
    exact ih'

/-- The `int` expressions of `D` and `E` of bounded moment sums stay in range. -/
theorem systemInts32_of_within (m : Moments) (hm : MomentsWithin m 12) :
    systemInts32 m = systemInts m := by
  obtain ⟨⟨a1, a2⟩, ⟨a3, a4⟩, ⟨a5, a6⟩, ⟨a7, a8⟩, ⟨a9, a10⟩, ⟨a11, a12⟩, ⟨a13, a14⟩,
    ⟨a15, a16⟩, ⟨a17, a18⟩⟩ := hm
  simp only [systemInts32, systemInts]
  rw [toInt32_of_range (2 * m.sum_xi) (by linarith) (by linarith),
    toInt32_of_range (2 * m.sum_yi) (by linarith) (by linarith),
    toInt32_of_range (2 * m.sum_xi_2) (by linarith) (by linarith),
    toInt32_of_range (2 * m.sum_xi_yi) (by linarith) (by linarith),
    toInt32_of_range (2 * m.sum_yi_2) (by linarith) (by linarith),
    toInt32_of_range (m.sum_xi_2 + m.sum_yi_2) (by linarith) (by linarith),
    toInt32_of_range (m.sum_xi_3 + m.sum_xi_yi_2) (by linarith) (by linarith),
    toInt32_of_range (m.sum_xi_2_yi + m.sum_yi_3) (by linarith) (by linarith)]

/-- The moment loop started from zero is within the bounds of zero iterations. -/
theorem momentsWithin_zero : MomentsWithin ⟨0, 0, 0, 0, 0, 0, 0, 0, 0⟩ 0 := by
  simp [MomentsWithin]

/-- C15: for twelve calibration points whose mean-translated coordinates have
absolute value at most 447, every `int` product of the loop, every accumulator
after every iteration and every `int` expression placed in `D` and `E`, computed
modulo 2^32, equals its exact integer value; whereas for the input
`wideOffset12`, whose first point has `xi = 1500`, the 32 bit value of
`sum_xi_3` differs from the exact sum. -/
theorem moments_fit_int32 (pts : List Point) (hlen : pts.length = 12)
    (hb : ∀ p ∈ pts, |p.x - (PointMean pts).x| ≤ 447 ∧ |p.y - (PointMean pts).y| ≤ 447) :
    (∀ p ∈ pts, toInt32 (p.x - (PointMean pts).x) = p.x - (PointMean pts).x ∧
      toInt32 (p.y - (PointMean pts).y) = p.y - (PointMean pts).y ∧
      products32 (p.x - (PointMean pts).x) (p.y - (PointMean pts).y)
        = products (p.x - (PointMean pts).x) (p.y - (PointMean pts).y)) ∧
    (∀ k : Nat, (pts.take k).foldl (accumulate32 (PointMean pts)) ⟨0, 0, 0, 0, 0, 0, 0, 0, 0⟩
      = (pts.take k).foldl (accumulate (PointMean pts)) ⟨0, 0, 0, 0, 0, 0, 0, 0, 0⟩) ∧
    momentSums32 (PointMean pts) pts = momentSums (PointMean pts) pts ∧
    systemInts32 (momentSums32 (PointMean pts) pts)
      = systemInts (momentSums (PointMean pts) pts) ∧
    ((1636 : Int) - (PointMean wideOffset12).x = 1500 ∧
      (momentSums32 (PointMean wideOffset12) wideOffset12).sum_xi_3
        ≠ (momentSums (PointMean wideOffset12) wideOffset12).sum_xi_3) := by
  have hb' : ∀ p ∈ pts, (-447 ≤ p.x - (PointMean pts).x ∧ p.x - (PointMean pts).x ≤ 447)
      ∧ (-447 ≤ p.y - (PointMean pts).y ∧ p.y - (PointMean pts).y ≤ 447) :=
    fun p hp => ⟨abs_le.mp (hb p hp).1, abs_le.mp (hb p hp).2⟩
  have hfold : ∀ k : Nat,
      (pts.take k).foldl (accumulate32 (PointMean pts)) ⟨0, 0, 0, 0, 0, 0, 0, 0, 0⟩
        = (pts.take k).foldl (accumulate (PointMean pts)) ⟨0, 0, 0, 0, 0, 0, 0, 0, 0⟩ ∧
      MomentsWithin ((pts.take k).foldl (accumulate (PointMean pts))
        ⟨0, 0, 0, 0, 0, 0, 0, 0, 0⟩) (0 + ((pts.take k).length : Int)) := by
    intro k
    apply foldl_accumulate32 (PointMean pts) (pts.take k)
      (fun p hp => hb' p (List.mem_of_mem_take hp)) _ 0 (le_refl 0) _ momentsWithin_zero
    have h1 : (pts.take k).length ≤ 12 := by
      rw [List.length_take, hlen]
      exact Nat.min_le_right k 12
    have h2 : ((pts.take k).length : Int) ≤ 12 := by exact_mod_cast h1
    linarith
  have hsum : momentSums32 (PointMean pts) pts = momentSums (PointMean pts) pts := by
    unfold momentSums32 momentSums
    exact (hfold nNumPoints).1
  have hwithin : MomentsWithin (momentSums (PointMean pts) pts) 12 := by
    have h := (hfold nNumPoints).2
    have h1 : (pts.take nNumPoints).length = 12 := by
      rw [List.length_take, hlen]
      rfl
    rw [h1] at h
    exact h
  refine ⟨?_, fun k => (hfold k).1, hsum, ?_, by decide, by decide⟩
  · intro p hp
    exact (accumulate32_step (PointMean pts) ⟨0, 0, 0, 0, 0, 0, 0, 0, 0⟩ p 0 (by norm_num)
      momentsWithin_zero (hb' p hp).1 (hb' p hp).2).1
  · rw [hsum]
    exact systemInts32_of_within _ hwithin

/-- C15, witness: the twelve points of the circle (50, 60, 40), whose
translated coordinates have absolute value at most 40. -/
theorem moments_fit_int32_witness :
    (∀ p ∈ circle50_60_40,
      toInt32 (p.x - (PointMean circle50_60_40).x) = p.x - (PointMean circle50_60_40).x ∧
      toInt32 (p.y - (PointMean circle50_60_40).y) = p.y - (PointMean circle50_60_40).y ∧
      products32 (p.x - (PointMean circle50_60_40).x) (p.y - (PointMean circle50_60_40).y)
        = products (p.x - (PointMean circle50_60_40).x)
            (p.y - (PointMean circle50_60_40).y)) ∧
    (∀ k : Nat, (circle50_60_40.take k).foldl (accumulate32 (PointMean circle50_60_40))
        ⟨0, 0, 0, 0, 0, 0, 0, 0, 0⟩
      = (circle50_60_40.take k).foldl (accumulate (PointMean circle50_60_40))
        ⟨0, 0, 0, 0, 0, 0, 0, 0, 0⟩) ∧
    momentSums32 (PointMean circle50_60_40) circle50_60_40
      = momentSums (PointMean circle50_60_40) circle50_60_40 ∧
    systemInts32 (momentSums32 (PointMean circle50_60_40) circle50_60_40)
      = systemInts (momentSums (PointMean circle50_60_40) circle50_60_40) ∧
    ((1636 : Int) - (PointMean wideOffset12).x = 1500 ∧
      (momentSums32 (PointMean wideOffset12) wideOffset12).sum_xi_3
        ≠ (momentSums (PointMean wideOffset12) wideOffset12).sum_xi_3) :=
  moments_fit_int32 circle50_60_40 (by decide) (by decide)

/-! ## C11 -/

theorem truncToInt_of_nonneg (q : ℚ) (h : 0 ≤ q) : truncToInt q = ⌊q⌋ := by
  unfold truncToInt
  rw [Int.tdiv_eq_ediv (Rat.num_nonneg.mpr h) (Int.natCast_nonneg _), Rat.floor_def]

/-- The solver's result for twelve points of one circle with rational centre
`(a, b)` and squared radius `s`, three of them distinct. -/
theorem solve_of_circle (Q0 : Vec3) (pts : List Point) (a b s : ℚ)
    (hlen : pts.length = 12)
    (hon : ∀ p ∈ pts, ((p.x : ℚ) - a) ^ 2 + ((p.y : ℚ) - b) ^ 2 = s)
    (hdist : ∃ p ∈ pts, ∃ q ∈ pts, ∃ t ∈ pts, p ≠ q ∧ q ≠ t ∧ p ≠ t) :
    solve Q0 (matD (momentSums (PointMean pts) pts)) (vecE (momentSums (PointMean pts) pts))
      = (true, ⟨a - ((PointMean pts).x : ℚ), b - ((PointMean pts).y : ℚ),
          s - (a - ((PointMean pts).x : ℚ)) ^ 2 - (b - ((PointMean pts).y : ℚ)) ^ 2⟩) := by
  have hreg := matD_regular (PointMean pts) pts a b s hlen hon hdist
  have hsol := circle_solves_system (PointMean pts) pts a b s hlen hon
  unfold solve
  rw [if_neg hreg, ← hsol, cramer3_mulVec3 _ _ hreg]

/-- The points `wideArc12` lie on the circle with centre `(99857/2, 316)` and
squared radius `9971420449/4`. -/
theorem wideArc12_on_circle :
    ∀ p ∈ wideArc12, ((p.x : ℚ) - 99857 / 2) ^ 2 + ((p.y : ℚ) - 316) ^ 2 = 9971420449 / 4 := by
  intro p hp
  have h : ∀ p ∈ wideArc12, (2 * p.x - 99857) ^ 2 + (2 * p.y - 632) ^ 2 = 9971420449 := by
    decide
  have h' : ((2 * (p.x : ℚ) - 99857) ^ 2 + (2 * (p.y : ℚ) - 632) ^ 2 : ℚ) = 9971420449 := by
    exact_mod_cast h p hp
  linear_combination (1 / 4 : ℚ) * h'

/-- Three of the points `wideArc12` are distinct. -/
theorem wideArc12_distinct :
    ∃ p ∈ wideArc12, ∃ q ∈ wideArc12, ∃ t ∈ wideArc12, p ≠ q ∧ q ≠ t ∧ p ≠ t :=
  ⟨⟨1, 0⟩, by decide, ⟨0, 316⟩, by decide, ⟨1, 632⟩, by decide, by decide, by decide,
    by decide⟩

/-- The Circle Fit Estimator on the clicks `wideArc12` returns `Cx = 49928`,
`Cy = 316`, `R = 49928`: the exact solution is `A = 49928.5`, `B = 0`, `C = 0`
around the mean `(0, 316)`. -/
theorem wideArc12_fit (Q0 : Vec3) : circleFit Q0 wideArc12 = ⟨49928, 316, 49928⟩ := by
  have hmean : PointMean wideArc12 = ⟨0, 316⟩ := by decide
  have hs := solve_of_circle Q0 wideArc12 (99857 / 2) 316 (9971420449 / 4) (by decide)
    wideArc12_on_circle wideArc12_distinct
  have hQ : (solve Q0 (matD (momentSums (PointMean wideArc12) wideArc12))
      (vecE (momentSums (PointMean wideArc12) wideArc12))).2
      = ⟨99857 / 2, 0, 0⟩ := by
    rw [hs, hmean]
    norm_num
  have ht : truncToInt (99857 / 2) = 49928 := by
    rw [truncToInt_of_nonneg _ (by norm_num), Int.floor_eq_iff]
    norm_num
  have ht0 : truncToInt 0 = 0 := by
    rw [truncToInt_of_nonneg _ (le_refl _)]
    simp
  have hr : sqrtToInt (radicand ⟨99857 / 2, 0, 0⟩) = 49928 := by
    have hrad : radicand ⟨99857 / 2, 0, 0⟩ = 9971420449 / 4 := by
      unfold radicand
      norm_num
    have hf : ⌊(9971420449 / 4 : ℚ)⌋ = 2492855112 := by
      rw [Int.floor_eq_iff]
      norm_num
    have hsq : Nat.sqrt 2492855112 = 49928 :=
      (Nat.eq_sqrt.mpr ⟨by norm_num, by norm_num⟩).symm
    rw [hrad]
    unfold sqrtToInt
    rw [hf]
    have htn : Int.toNat 2492855112 = 2492855112 := by decide
    rw [htn, hsq]
    rfl
  have hQ' := hQ
  rw [hmean] at hQ'
  simp only [circleFit, hmean, hQ', ht, ht0, hr]
  rfl

/-- The Midpoint-Circle run on the clicks `wideArc12`: the generated map is
the loop body for the circle `(49928, 316, 49928)`. -/
theorem wideArc_run {K : Type} [LinearOrderedField K] (M : MathFns K) :
    main M wideArcEnv (argvWith "1")
      = ⟨0, some MIDPOINTCIRCLE, some ⟨49928, 316, 49928⟩,
          some (fun v u => midpointCirclePixel M 49928 316 49928 u v)⟩ := by
  have h := main_midpoint M wideArcEnv (argvWith "1") 640 640 (by decide) (by rfl)
    (by decide)
  have hfit : circleFit wideArcEnv.Q0 wideArcEnv.aPoints = ⟨49928, 316, 49928⟩ :=
    wideArc12_fit _
  rw [h, hfit]

/-! ## C4 -/

/-- C4 (counterexample): the clicks `wideArc12` on a 640x640 image are fitted
to `Cx = 49928`, `Cy = 316`, `R = 49928`; the pixel `u = 0`, `v = 316` lies on
the row `v = Cy` with `R != 0` and `u != Cx`, but the `int` product `R * R`
wraps to `-1802162112`, the radicand is `690643072` instead of `4985610368`,
the argument of `asin` is `-49928 / sqrt 690643072 < -1`, and the value stored
by the run is not `(u, Cy)`: it is not defined (NaN). -/
theorem midpoint_horizontal_axis_overflow :
    circleFit ⟨0, 0, 0⟩ wideArc12 = ⟨49928, 316, 49928⟩ ∧
    toInt32 (49928 * 49928) = -1802162112 ∧
    (49928 : Int) ≠ 0 ∧ (((316 : Nat) : Int) = 316) ∧ (((0 : Nat) : Int) ≠ 49928) ∧
    midpointCirclePixel (K := ℝ) ⟨Real.pi, Real.sqrt, Real.sin, Real.cos, Real.arcsin,
      Real.arctan, fun x => |x|, fun x y => x ^ y⟩ 49928 316 49928 0 316 = none ∧
    (main (K := ℝ) ⟨Real.pi, Real.sqrt, Real.sin, Real.cos, Real.arcsin,
      Real.arctan, fun x => |x|, fun x y => x ^ y⟩ wideArcEnv
      (argvWith "1")).transformMap.map (fun T => T 316 0) = some none := by
  have hw : toInt32 (49928 * 49928) = -1802162112 := by decide
  have hpix : midpointCirclePixel (K := ℝ) ⟨Real.pi, Real.sqrt, Real.sin, Real.cos,
      Real.arcsin, Real.arctan, fun x => |x|, fun x y => x ^ y⟩ 49928 316 49928 0 316
      = none := by
    apply midpointCirclePixel_of_general_none _ 49928 316 49928 0 316 (by decide)
    have e1 : (((((0 : Nat) : Int) - 49928 : Int)) : ℝ) = -49928 := by norm_num
    rw [e1]
    have es : (-49928 : ℝ) * (-49928) + ((toInt32 (49928 * 49928) : Int) : ℝ)
        = 690643072 := by
      rw [hw]
      norm_num
    have hlt : Real.sqrt 690643072 < 49928 := by
      rw [Real.sqrt_lt' (by norm_num)]
      norm_num
    have hpos : 0 < Real.sqrt 690643072 := Real.sqrt_pos.mpr (by norm_num)
    apply midpointGeneral_asin_domain _ 49928 (-49928) _ (by norm_num)
    · rw [es]
      norm_num
    · left
      rw [es]
      simp only
      have hq : Real.sqrt 690643072 / (2 * (690643072 / (2 * (-49928 : ℝ))))
          = -(49928 / Real.sqrt 690643072) := by
        have hmul := Real.mul_self_sqrt (show (0 : ℝ) ≤ 690643072 by norm_num)
        field_simp
        nlinarith [hmul]
      rw [hq, neg_lt_neg_iff, lt_div_iff₀ hpos]
      linarith
  refine ⟨wideArc12_fit _, hw, by decide, by decide, by decide, hpix, ?_⟩
  rw [wideArc_run, Option.map_some']
  exact congrArg some hpix

/-- C4 (amended): for a fitted circle with `0 < |R| <= 4096` and a pixel on the
row `v = Cy` (so `yt = 0`) with `0 < |u - Cx| <= 4096`, the product `R * R`
does not wrap, both squares are integers of at most `2^24`, and the general
case gives `a = 0`, `alpha = 0`, `x1 = xt`, `y1 = 0`, hence `mapX = u` and
`mapY = Cy` (exact real arithmetic). -/
theorem midpoint_horizontal_axis (M : MathFns ℝ) (hM : RealMath M) (Cx Cy R : Int)
    (u v : Nat) (hR : R ≠ 0) (hRb : |R| ≤ 4096) (hv : (v : Int) = Cy)
    (hu : (u : Int) ≠ Cx) (hub : |(u : Int) - Cx| ≤ 4096) :
    toInt32 (R * R) = R * R ∧ R * R ≤ 16777216 ∧
    ((u : Int) - Cx) * ((u : Int) - Cx) ≤ 16777216 ∧
    (∃ g, midpointGeneral M R ((((u : Int) - Cx : Int)) : ℝ) ((((v : Int) - Cy : Int)) : ℝ)
        = some g ∧ g.a = 0 ∧ g.alpha = 0) ∧
    midpointOffset M R ((((u : Int) - Cx : Int)) : ℝ) ((((v : Int) - Cy : Int)) : ℝ)
      = some (((((u : Int) - Cx : Int)) : ℝ), 0) ∧
    midpointCirclePixel M Cx Cy R u v = some ((u : ℝ), (Cy : ℝ)) := by
  have hR46 : |R| ≤ 46340 := le_trans hRb (by norm_num)
  have hsqR : R * R ≤ 16777216 := by
    obtain ⟨h1, h2⟩ := abs_le.mp hRb
    nlinarith
  have hsqx : ((u : Int) - Cx) * ((u : Int) - Cx) ≤ 16777216 := by
    obtain ⟨h1, h2⟩ := abs_le.mp hub
    nlinarith
  have hg := fun (yt : ℝ) => midpointGeneral_some_real M hM R hR46
    ((((u : Int) - Cx : Int)) : ℝ) yt
  obtain ⟨_, _, hsin, hcos, _, _, _, _⟩ := hM
  have hx : ((((u : Int) - Cx : Int)) : ℝ) ≠ 0 := by
    intro h
    apply hu
    have h' : (u : Int) - Cx = 0 := by exact_mod_cast h
    omega
  have hy : ((((v : Int) - Cy : Int)) : ℝ) = 0 := by
    rw [hv]
    simp
  have hR' : (R : ℝ) - ((((v : Int) - Cy : Int)) : ℝ) ≠ 0 := by
    rw [hy, sub_zero]
    exact_mod_cast hR
  have ha : ((((v : Int) - Cy : Int)) : ℝ) / ((R : ℝ) - ((((v : Int) - Cy : Int)) : ℝ)) + 1
      ≠ 0 := by
    rw [hy]
    simp
  have hg := hg _ hx hR' ha
  have hoff : midpointOffset M R ((((u : Int) - Cx : Int)) : ℝ)
      ((((v : Int) - Cy : Int)) : ℝ) = some (((((u : Int) - Cx : Int)) : ℝ), 0) := by
    simp only [midpointOffset, if_pos hx, bind, Option.bind_eq_bind, pure, hg,
      Option.some_bind]
    rw [hy]
    simp [hsin, hcos]
  refine ⟨toInt32_sq R hR46, hsqR, hsqx, ⟨_, hg, ?_, ?_⟩, hoff, ?_⟩
  · simp only
    rw [hy]
    simp
  · simp only
    rw [hy]
    simp
  · simp only [midpointCirclePixel, bind, Option.bind_eq_bind, pure, hoff, Option.some_bind]
    push_cast
    simp

/-- C4, witness: `Cx = Cy = 150`, `R = 100` at the pixel `u = 50`, `v = 150`. -/
theorem midpoint_horizontal_axis_witness :
    toInt32 (100 * 100) = 100 * 100 ∧ (100 : Int) * 100 ≤ 16777216 ∧
    (((50 : Nat) : Int) - 150) * (((50 : Nat) : Int) - 150) ≤ 16777216 ∧
    (∃ g, midpointGeneral (K := ℝ) ⟨Real.pi, Real.sqrt, Real.sin, Real.cos, Real.arcsin,
        Real.arctan, fun x => |x|, fun x y => x ^ y⟩ 100
        (((((50 : Nat) : Int) - 150 : Int)) : ℝ) (((((150 : Nat) : Int) - 150 : Int)) : ℝ)
        = some g ∧ g.a = 0 ∧ g.alpha = 0) ∧
    midpointOffset (K := ℝ) ⟨Real.pi, Real.sqrt, Real.sin, Real.cos, Real.arcsin,
        Real.arctan, fun x => |x|, fun x y => x ^ y⟩ 100
        (((((50 : Nat) : Int) - 150 : Int)) : ℝ) (((((150 : Nat) : Int) - 150 : Int)) : ℝ)
      = some ((((((50 : Nat) : Int) - 150 : Int)) : ℝ), 0) ∧
    midpointCirclePixel (K := ℝ) ⟨Real.pi, Real.sqrt, Real.sin, Real.cos, Real.arcsin,
        Real.arctan, fun x => |x|, fun x y => x ^ y⟩ 150 150 100 50 150
      = some (((50 : Nat) : ℝ), ((150 : Int) : ℝ)) :=
  midpoint_horizontal_axis _ ⟨rfl, rfl, rfl, rfl, rfl, rfl, rfl, rfl⟩ 150 150 100 50 150
    (by decide) (by decide) (by decide) (by decide) (by decide)

/-! ## C14 -/

/-- C14 (counterexample): the clicks `wideArc12` on a 640x640 image are fitted
to `Cx = 49928`, `Cy = 316`, `R = 49928`; at the pixel `u = 1`, `v = 0`, where
`xt = -49927 != 0` and `yt = -316`, the `int` product `R * R` wraps to
`-1802162112`, the radicand is `690543217`, and the argument `AB / (2 * AO1)`
of `asin` is below `-1`: `b` is not defined and neither is the value stored by
the run. -/
theorem asin_argument_out_of_domain :
    circleFit ⟨0, 0, 0⟩ wideArc12 = ⟨49928, 316, 49928⟩ ∧
    toInt32 (49928 * 49928) = -1802162112 ∧
    (-49927 : ℝ) * (-49927) + ((toInt32 (49928 * 49928) : Int) : ℝ) = 690543217 ∧
    Real.sqrt 690543217 / (2 * (690543217 / (2 * (-49927 : ℝ)))) < -1 ∧
    fasin (K := ℝ) ⟨Real.pi, Real.sqrt, Real.sin, Real.cos, Real.arcsin,
      Real.arctan, fun x => |x|, fun x y => x ^ y⟩
      (Real.sqrt 690543217 / (2 * (690543217 / (2 * (-49927 : ℝ))))) = none ∧
    midpointGeneral (K := ℝ) ⟨Real.pi, Real.sqrt, Real.sin, Real.cos, Real.arcsin,
      Real.arctan, fun x => |x|, fun x y => x ^ y⟩ 49928 (-49927) (-316) = none ∧
    (main (K := ℝ) ⟨Real.pi, Real.sqrt, Real.sin, Real.cos, Real.arcsin,
      Real.arctan, fun x => |x|, fun x y => x ^ y⟩ wideArcEnv
      (argvWith "1")).transformMap.map (fun T => T 0 1) = some none := by
  have hw : toInt32 (49928 * 49928) = -1802162112 := by decide
  have es : (-49927 : ℝ) * (-49927) + ((toInt32 (49928 * 49928) : Int) : ℝ) = 690543217 := by
    rw [hw]
    norm_num
  have hlt : Real.sqrt 690543217 < 49927 := by
    rw [Real.sqrt_lt' (by norm_num)]
    norm_num
  have hpos : 0 < Real.sqrt 690543217 := Real.sqrt_pos.mpr (by norm_num)
  have hq : Real.sqrt 690543217 / (2 * (690543217 / (2 * (-49927 : ℝ)))) < -1 := by
    have hq' : Real.sqrt 690543217 / (2 * (690543217 / (2 * (-49927 : ℝ))))
        = -(49927 / Real.sqrt 690543217) := by
      have hmul := Real.mul_self_sqrt (show (0 : ℝ) ≤ 690543217 by norm_num)
      field_simp
      nlinarith [hmul]
    rw [hq', neg_lt_neg_iff, lt_div_iff₀ hpos]
    linarith
  have hgen : midpointGeneral (K := ℝ) ⟨Real.pi, Real.sqrt, Real.sin, Real.cos, Real.arcsin,
      Real.arctan, fun x => |x|, fun x y => x ^ y⟩ 49928 (-49927) (-316) = none := by
    apply midpointGeneral_asin_domain _ 49928 (-49927) _ (by norm_num)
    · rw [es]
      norm_num
    · left
      rw [es]
      exact hq
  refine ⟨wideArc12_fit _, hw, es, hq, fasin_of_not_mem _ _ (Or.inl hq), hgen, ?_⟩
  rw [wideArc_run, Option.map_some']
  have e1 : (((((1 : Nat) : Int) - 49928 : Int)) : ℝ) = -49927 := by norm_num
  have e2 : (((((0 : Nat) : Int) - 316 : Int)) : ℝ) = -316 := by norm_num
  have hpix : midpointCirclePixel (K := ℝ) ⟨Real.pi, Real.sqrt, Real.sin, Real.cos,
      Real.arcsin, Real.arctan, fun x => |x|, fun x y => x ^ y⟩ 49928 316 49928 1 0
      = none := by
    apply midpointCirclePixel_of_general_none _ 49928 316 49928 1 0 (by decide)
    rw [e1, e2]
    exact hgen
  exact congrArg some hpix

/-- C14 (amended): for every integer `R` with `|R| <= 46340` (so that the `int`
product `R * R` does not wrap) and every integer `xt != 0` with `|xt| <= 4096`
(so that `xt * xt` is an integer of at most `2^24`), `AO1` is defined and
non-zero, the radicand is non-negative, `AB / (2 * AO1)` is defined and equals
`xt / sqrt (xt^2 + R^2)`, whose absolute value is at most 1 (below 1 for
`R != 0`), `asin` is called inside its domain and `b = 2 * asin (...)`
satisfies `|b| <= pi`; whenever `PE` and `a + 1` are non-zero, this is the `b`
the general case computes (exact real arithmetic). -/
theorem asin_argument_in_domain (M : MathFns ℝ) (hM : RealMath M) (R n : Int)
    (hRb : |R| ≤ 46340) (hn : n ≠ 0) (hnb : |n| ≤ 4096) :
    toInt32 (R * R) = R * R ∧ n * n ≤ 16777216 ∧
    fdiv ((n : ℝ) * (n : ℝ) + ((toInt32 (R * R) : Int) : ℝ)) (2 * (n : ℝ))
      = some (((n : ℝ) * (n : ℝ) + ((R * R : Int) : ℝ)) / (2 * (n : ℝ))) ∧
    ((n : ℝ) * (n : ℝ) + ((R * R : Int) : ℝ)) / (2 * (n : ℝ)) ≠ 0 ∧
    fsqrt M ((n : ℝ) * (n : ℝ) + ((toInt32 (R * R) : Int) : ℝ))
      = some (Real.sqrt ((n : ℝ) * (n : ℝ) + ((R * R : Int) : ℝ))) ∧
    fdiv (Real.sqrt ((n : ℝ) * (n : ℝ) + ((R * R : Int) : ℝ)))
        (2 * (((n : ℝ) * (n : ℝ) + ((R * R : Int) : ℝ)) / (2 * (n : ℝ))))
      = some ((n : ℝ) / Real.sqrt ((n : ℝ) * (n : ℝ) + ((R * R : Int) : ℝ))) ∧
    |(n : ℝ) / Real.sqrt ((n : ℝ) * (n : ℝ) + ((R * R : Int) : ℝ))| ≤ 1 ∧
    (R ≠ 0 → |(n : ℝ) / Real.sqrt ((n : ℝ) * (n : ℝ) + ((R * R : Int) : ℝ))| < 1) ∧
    fasin M ((n : ℝ) / Real.sqrt ((n : ℝ) * (n : ℝ) + ((R * R : Int) : ℝ)))
      = some (Real.arcsin ((n : ℝ) / Real.sqrt ((n : ℝ) * (n : ℝ) + ((R * R : Int) : ℝ)))) ∧
    |2 * Real.arcsin ((n : ℝ) / Real.sqrt ((n : ℝ) * (n : ℝ) + ((R * R : Int) : ℝ)))|
      ≤ Real.pi ∧
    (∀ yt : ℝ, (R : ℝ) - yt ≠ 0 → yt / ((R : ℝ) - yt) + 1 ≠ 0 →
      ∃ g, midpointGeneral M R (n : ℝ) yt = some g ∧
        g.AO1 = ((n : ℝ) * (n : ℝ) + ((R * R : Int) : ℝ)) / (2 * (n : ℝ)) ∧
        g.AB / (2 * g.AO1)
          = (n : ℝ) / Real.sqrt ((n : ℝ) * (n : ℝ) + ((R * R : Int) : ℝ)) ∧
        g.b = 2 * Real.arcsin
          ((n : ℝ) / Real.sqrt ((n : ℝ) * (n : ℝ) + ((R * R : Int) : ℝ))) ∧
        |g.b| ≤ Real.pi) := by
  have hsome := fun (yt : ℝ) => midpointGeneral_some_real M hM R hRb (n : ℝ) yt
  obtain ⟨_, hsqrt, _, _, hasin, _, _, _⟩ := hM
  have e := toInt32_sq R hRb
  have hx : (n : ℝ) ≠ 0 := by exact_mod_cast hn
  have hsqn : n * n ≤ 16777216 := by
    obtain ⟨h1, h2⟩ := abs_le.mp hnb
    nlinarith
  have h1 : 0 < (n : ℝ) * (n : ℝ) := mul_self_pos.mpr hx
  have h2 : (0 : ℝ) ≤ ((R * R : Int) : ℝ) := by
    have : (0 : Int) ≤ R * R := mul_self_nonneg R
    exact_mod_cast this
  have hs : 0 < (n : ℝ) * (n : ℝ) + ((R * R : Int) : ℝ) := by linarith
  have h2x : (2 : ℝ) * (n : ℝ) ≠ 0 := mul_ne_zero two_ne_zero hx
  have hAO := two_AO1_ne_zero _ (n : ℝ) (ne_of_gt hs) hx
  have hAO1 : ((n : ℝ) * (n : ℝ) + ((R * R : Int) : ℝ)) / (2 * (n : ℝ)) ≠ 0 :=
    (mul_ne_zero_iff.mp hAO).2
  have harg := asin_argument_eq R (n : ℝ) hx
  have hbound := asin_argument_bound R (n : ℝ) hx
  have hb : |2 * Real.arcsin ((n : ℝ) / Real.sqrt ((n : ℝ) * (n : ℝ) + ((R * R : Int) : ℝ)))|
      ≤ Real.pi := by
    rw [abs_le]
    constructor
    · linarith [Real.neg_pi_div_two_le_arcsin
        ((n : ℝ) / Real.sqrt ((n : ℝ) * (n : ℝ) + ((R * R : Int) : ℝ)))]
    · linarith [Real.arcsin_le_pi_div_two
        ((n : ℝ) / Real.sqrt ((n : ℝ) * (n : ℝ) + ((R * R : Int) : ℝ)))]
  refine ⟨e, hsqn, ?_, hAO1, ?_, ?_, hbound.1, hbound.2, ?_, hb, ?_⟩
  · rw [e, fdiv_of_ne _ _ h2x]
  · rw [e, fsqrt_of_nonneg M _ (le_of_lt hs), hsqrt]
  · rw [fdiv_of_ne _ _ hAO, harg]
  · rw [fasin_of_mem M _ (abs_le.mp hbound.1).1 (abs_le.mp hbound.1).2, hasin]
  · intro yt hPE ha
    refine ⟨_, hsome yt hx hPE ha, rfl, ?_, ?_, ?_⟩
    · simp only [hsqrt]
      exact harg
    · simp only [hsqrt, hasin, harg]
    · simp only [hsqrt, hasin, harg]
      exact hb

/-- C14, witness: `R = 100` and `xt = -100`. -/
theorem asin_argument_in_domain_witness :
    toInt32 (100 * 100) = 100 * 100 ∧ (-100 : Int) * (-100) ≤ 16777216 ∧
    fdiv (((-100 : Int) : ℝ) * ((-100 : Int) : ℝ) + ((toInt32 (100 * 100) : Int) : ℝ))
        (2 * ((-100 : Int) : ℝ))
      = some ((((-100 : Int) : ℝ) * ((-100 : Int) : ℝ) + (((100 : Int) * 100 : Int) : ℝ))
          / (2 * ((-100 : Int) : ℝ))) ∧
    (((-100 : Int) : ℝ) * ((-100 : Int) : ℝ) + (((100 : Int) * 100 : Int) : ℝ))
      / (2 * ((-100 : Int) : ℝ)) ≠ 0 ∧
    fsqrt (K := ℝ) ⟨Real.pi, Real.sqrt, Real.sin, Real.cos, Real.arcsin,
        Real.arctan, fun x => |x|, fun x y => x ^ y⟩
        (((-100 : Int) : ℝ) * ((-100 : Int) : ℝ) + ((toInt32 (100 * 100) : Int) : ℝ))
      = some (Real.sqrt (((-100 : Int) : ℝ) * ((-100 : Int) : ℝ)
          + (((100 : Int) * 100 : Int) : ℝ))) ∧
    fdiv (Real.sqrt (((-100 : Int) : ℝ) * ((-100 : Int) : ℝ) + (((100 : Int) * 100 : Int) : ℝ)))
        (2 * ((((-100 : Int) : ℝ) * ((-100 : Int) : ℝ) + (((100 : Int) * 100 : Int) : ℝ))
          / (2 * ((-100 : Int) : ℝ))))
      = some (((-100 : Int) : ℝ) / Real.sqrt (((-100 : Int) : ℝ) * ((-100 : Int) : ℝ)
          + (((100 : Int) * 100 : Int) : ℝ))) ∧
    |((-100 : Int) : ℝ) / Real.sqrt (((-100 : Int) : ℝ) * ((-100 : Int) : ℝ)
        + (((100 : Int) * 100 : Int) : ℝ))| ≤ 1 ∧
    ((100 : Int) ≠ 0 →
      |((-100 : Int) : ℝ) / Real.sqrt (((-100 : Int) : ℝ) * ((-100 : Int) : ℝ)
        + (((100 : Int) * 100 : Int) : ℝ))| < 1) ∧
    fasin (K := ℝ) ⟨Real.pi, Real.sqrt, Real.sin, Real.cos, Real.arcsin,
        Real.arctan, fun x => |x|, fun x y => x ^ y⟩
        (((-100 : Int) : ℝ) / Real.sqrt (((-100 : Int) : ℝ) * ((-100 : Int) : ℝ)
          + (((100 : Int) * 100 : Int) : ℝ)))
      = some (Real.arcsin (((-100 : Int) : ℝ) / Real.sqrt (((-100 : Int) : ℝ)
          * ((-100 : Int) : ℝ) + (((100 : Int) * 100 : Int) : ℝ)))) ∧
    |2 * Real.arcsin (((-100 : Int) : ℝ) / Real.sqrt (((-100 : Int) : ℝ) * ((-100 : Int) : ℝ)
        + (((100 : Int) * 100 : Int) : ℝ)))| ≤ Real.pi ∧
    (∀ yt : ℝ, ((100 : Int) : ℝ) - yt ≠ 0 → yt / (((100 : Int) : ℝ) - yt) + 1 ≠ 0 →
      ∃ g, midpointGeneral (K := ℝ) ⟨Real.pi, Real.sqrt, Real.sin, Real.cos, Real.arcsin,
          Real.arctan, fun x => |x|, fun x y => x ^ y⟩ 100 ((-100 : Int) : ℝ) yt = some g ∧
        g.AO1 = (((-100 : Int) : ℝ) * ((-100 : Int) : ℝ) + (((100 : Int) * 100 : Int) : ℝ))
          / (2 * ((-100 : Int) : ℝ)) ∧
        g.AB / (2 * g.AO1)
          = ((-100 : Int) : ℝ) / Real.sqrt (((-100 : Int) : ℝ) * ((-100 : Int) : ℝ)
            + (((100 : Int) * 100 : Int) : ℝ)) ∧
        g.b = 2 * Real.arcsin (((-100 : Int) : ℝ) / Real.sqrt (((-100 : Int) : ℝ)
          * ((-100 : Int) : ℝ) + (((100 : Int) * 100 : Int) : ℝ))) ∧
        |g.b| ≤ Real.pi) :=
  asin_argument_in_domain (⟨Real.pi, Real.sqrt, Real.sin, Real.cos, Real.arcsin,
    Real.arctan, fun x => |x|, fun x y => x ^ y⟩ : MathFns ℝ)
    ⟨rfl, rfl, rfl, rfl, rfl, rfl, rfl, rfl⟩ 100 (-100) (by decide) (by decide) (by decide)

end FishEye
